import Mathlib

/-!
Shallow embedding of the `syncmap` crate's core (`src/map.rs`, `src/entry.rs`):
a two-tier map consisting of a published read snapshot (`ReadOnly`), a
mutex-protected dirty overlay, per-entry atomic value slots with an
expunge marker, and the miss-counted promotion protocol.

The embedding is sequential: a single thread performs the operations, so
every atomic load observes the preceding store and every CAS whose expected
value was loaded in the same critical section succeeds.  Pointers are
modelled by heap indices: entry cells live in `entries`, boxed values in
`vals`, and published `ReadOnly` snapshots in `snaps`; `none` is the null
pointer.  As in the source, `put` carries the read-snapshot pointer it
loaded before acquiring the mutex (`table`) across the lock acquisition, so
the embedding exposes it as an argument (`putFrom`); the sequential `putOp`
instantiates it with the currently published snapshot.
-/

namespace Syncmap

/-- Model of `Entry<V>` (`src/entry.rs`): two atomic pointers `p` and
`expunged`, each an optional value-heap index (`none` is the null pointer). -/
structure EntrySt where
  p : Option Nat
  expunged : Option Nat
deriving DecidableEq

/-- Model of `ReadOnly<K, V>` (`src/map.rs`): a key to entry-pointer mapping
(association list standing for the `HashMap`) plus the `amended` flag. -/
structure ReadOnly (K : Type) where
  m : List (K × Nat)
  amended : Bool

/-- Model of `Entry::try_store` (`src/entry.rs`): the CAS loop terminates at
the first iteration sequentially; it returns `false` when the loaded value
pointer equals the loaded `expunged` pointer, otherwise it installs `va`. -/
def tryStore (e : EntrySt) (va : Nat) : EntrySt × Bool :=
  if e.p = e.expunged then (e, false)
  else ({ e with p := some va }, true)

/-- Model of `Entry::remove` (`src/entry.rs`): if `p` is null return `None`,
otherwise CAS `p` to null (sequentially successful) and return the detached
value pointer. -/
def entryRemove (e : EntrySt) : EntrySt × Option Nat :=
  match e.p with
  | none => (e, none)
  | some a => ({ e with p := none }, some a)

/-- Model of `Entry::load` (`src/entry.rs`): return the value pointer if
non-null. -/
def entryLoad (e : EntrySt) : Option Nat := e.p

/-- Model of `Entry::unexpunge_locked` (`src/entry.rs`): CAS the `expunged`
field from its just-loaded value to null; with no intervening store the CAS
always succeeds, so the result is always `true`. -/
def unexpungeLocked (e : EntrySt) : EntrySt × Bool :=
  ({ e with expunged := none }, true)

/-- Model of `Entry::try_unexpunge_locked` (`src/entry.rs`): while `p` is
null, CAS it to the loaded `expunged` pointer (sequentially successful at
the first attempt) and return `true`; otherwise return whether `p` equals
the `expunged` pointer. -/
def tryUnexpunge (e : EntrySt) : EntrySt × Bool :=
  match e.p with
  | none => ({ e with p := e.expunged }, true)
  | some _ => (e, decide (e.p = e.expunged))

/-- Model of `Entry::store_locked` (`src/entry.rs`): unconditional swap of
the value pointer. -/
def storeLocked (e : EntrySt) (va : Nat) : EntrySt := { e with p := some va }

/-- Lookup in the association-list model of `HashMap::get`. -/
def alookup {K : Type} [DecidableEq K] : List (K × Nat) → K → Option Nat
  | [], _ => none
  | (k, r) :: t, q => if q = k then some r else alookup t q

/-- Insertion in the association-list model of `HashMap::insert`: replace
the binding if the key is present, otherwise append it. -/
def ainsert {K : Type} [DecidableEq K] : List (K × Nat) → K → Nat → List (K × Nat)
  | [], q, r => [(q, r)]
  | (k, v) :: t, q, r => if q = k then (q, r) :: t else (k, v) :: ainsert t q r

/-- Removal in the association-list model of `HashMap::remove` (drops every
binding of the key; on the key-unique lists the map maintains this is the
single binding). -/
def aerase {K : Type} [DecidableEq K] : List (K × Nat) → K → List (K × Nat)
  | [], _ => []
  | (k, v) :: t, q => if q = k then aerase t q else (k, v) :: aerase t q

/-- Model of the `for (key, value) in src { map.insert(key, value) }` copy
loops in `miss_locked` and `put` (reference-copy of the entry pointers). -/
def copyList {K : Type} [DecidableEq K] : List (K × Nat) → List (K × Nat) → List (K × Nat)
  | acc, [] => acc
  | acc, (k, e) :: t => copyList (ainsert acc k e) t

/-- Model of the rebuild loop of `Map::dirty_locked` (`src/map.rs`): walk the
read snapshot; `try_unexpunge_locked` each entry, and insert into the new
overlay exactly the entries for which it returned `false`. -/
def expungeScan {K : Type} [DecidableEq K] :
    (Nat → EntrySt) → List (K × Nat) → List (K × Nat) → (Nat → EntrySt) × List (K × Nat)
  | ents, acc, [] => (ents, acc)
  | ents, acc, (k, e) :: t =>
    let r := tryUnexpunge (ents e)
    expungeScan (Function.update ents e r.1) (if r.2 then acc else ainsert acc k e) t

/-- State of a `Map<K, V>` (`src/map.rs`).  `readIdx` is the `read` pointer
(an index into the snapshot heap `snaps` or null), `dirty` the dirty-overlay
pointer, `misses` the miss counter, `flagCtl` the init/control flag.
`entries`/`nextEntry` and `vals`/`nextVal` are the heaps of `Entry` cells and
of boxed values. -/
structure MapState (K V : Type) where
  readIdx : Option Nat
  snaps : Nat → ReadOnly K
  nextSnap : Nat
  dirty : Option (List (K × Nat))
  misses : Nat
  entries : Nat → EntrySt
  nextEntry : Nat
  vals : Nat → V
  nextVal : Nat
  flagCtl : Int

variable {K V : Type}

/-- Load factor macro from `src/map.rs`: `n - n/4`. -/
def loadFactor (n : Int) : Int := n - n / 4

/-- Model of `Map::init_table` (`src/map.rs`): if the read pointer is
non-null return it; otherwise (sequentially, the CAS on `flag_ctl` from a
non-negative value succeeds at once) publish an empty snapshot and an empty
dirty overlay and store the reduced load factor.  A negative `flag_ctl`
makes the source spin forever waiting for another thread; that situation is
unreachable at operation boundaries and is modelled as leaving the state
unchanged. -/
def initTable [DecidableEq K] (s : MapState K V) : MapState K V :=
  match s.readIdx with
  | some _ => s
  | none =>
    if s.flagCtl < 0 then s
    else
      let n : Int := if 0 < s.flagCtl then s.flagCtl else 1
      { s with
        snaps := Function.update s.snaps s.nextSnap ⟨[], false⟩
        nextSnap := s.nextSnap + 1
        readIdx := some s.nextSnap
        dirty := some []
        flagCtl := loadFactor n }

/-- Model of `Map::miss_locked` (`src/map.rs`): `fetch_add` the miss counter
(returning its previous value `miss`); if the dirty pointer is null or
`miss` is below the overlay length, stop.  Otherwise publish a new snapshot
holding a reference-copy of the overlay with `amended = false`, clear the
dirty pointer (the CAS from the just-loaded non-null overlay succeeds) and
reset the counter. -/
def missLocked [DecidableEq K] (s : MapState K V) : MapState K V :=
  let miss := s.misses
  let s := { s with misses := s.misses + 1 }
  match s.dirty with
  | none => s
  | some d =>
    if miss < d.length then s
    else
      let s := { s with
        snaps := Function.update s.snaps s.nextSnap ⟨copyList [] d, false⟩
        nextSnap := s.nextSnap + 1
        readIdx := some s.nextSnap }
      { s with dirty := none, misses := 0 }

/-- Dereference and load an optional entry pointer, as the common tail of
`Map::get` does (`e.unwrap().as_ref().unwrap().load(guard)`). -/
def entryLoadV (s : MapState K V) (e : Option Nat) : Option V :=
  match e with
  | none => none
  | some eref =>
    match entryLoad (s.entries eref) with
    | none => none
    | some a => some (s.vals a)

/-- Model of `Map::get` (`src/map.rs`).  Probe the published snapshot; on a
miss with `amended` set, take the mutex, re-probe (sequentially the reloaded
snapshot is the same one), consult the dirty overlay and call `miss_locked`.
Returns the updated state and the result. -/
def getOp [DecidableEq K] (s : MapState K V) (k : K) : MapState K V × Option V :=
  match s.readIdx with
  | none => (s, none)
  | some ri =>
    let r := s.snaps ri
    let e := alookup r.m k
    if e = none ∧ r.amended = true then
      let e2 := alookup r.m k
      if e2 = none ∧ r.amended = true then
        match s.dirty with
        | none => (s, none)
        | some d =>
          let e3 := alookup d k
          let s' := missLocked s
          (s', entryLoadV s' e3)
      else (s, entryLoadV s e2)
    else (s, entryLoadV s e)

/-- Model of `Map::dirty_locked` (`src/map.rs`): if the dirty pointer is
null, return (the source never reaches this with a null published snapshot;
such a state is modelled as a no-op).  Otherwise rebuild the overlay from
the snapshot with `expungeScan`, append a fresh entry holding `va` for `k`,
and store the overlay. -/
def dirtyLocked [DecidableEq K] (s : MapState K V) (k : K) (va : Nat) : MapState K V :=
  match s.dirty with
  | none => s
  | some _ =>
    match s.readIdx with
    | none => s
    | some ri =>
      let scan := expungeScan s.entries [] (s.snaps ri).m
      let er := s.nextEntry
      { s with
        entries := Function.update scan.1 er ⟨some va, none⟩
        nextEntry := er + 1
        dirty := some (ainsert scan.2 k er) }

/-- Slow/fast path of `Map::put` for a key found in the loop's read view
(`src/map.rs`, the `Some(v)`/`Some(e)` branches): first `try_store`; on
failure take the mutex, `unexpunge_locked` (which always returns `true`),
insert the entry reference into the **currently published snapshot's map in
place** (the source mutates the reloaded `ReadOnly` through `as_mut`), then
`store_locked`.  The fast-path lookup and the locked re-lookup read the same
frozen map, so the entry reference is passed once as `eref`. -/
def putReadHit [DecidableEq K] (s : MapState K V) (k : K) (eref va : Nat) : MapState K V :=
  let f := tryStore (s.entries eref) va
  let s := { s with entries := Function.update s.entries eref f.1 }
  if f.2 then s
  else
    let u := unexpungeLocked (s.entries eref)
    let s := { s with entries := Function.update s.entries eref u.1 }
    let s :=
      if u.2 then
        match s.readIdx with
        | none => s
        | some ri2 =>
          let r2 := s.snaps ri2
          { s with snaps := Function.update s.snaps ri2 ⟨ainsert r2.m k eref, r2.amended⟩ }
      else s
    { s with entries := Function.update s.entries eref (storeLocked (s.entries eref) va) }

/-- The `None` match arm of `Map::put` once the dirty overlay exists
(`src/map.rs`): store through an entry already in the overlay; otherwise if
the read view is not amended, rebuild the overlay (`dirty_locked`) and
publish a copy of the snapshot with `amended = true`; otherwise (the two
loads of the dirty pointer within one critical section are equal, so the
retry branch is never taken) allocate a fresh entry and insert it into the
overlay. -/
def putNovel [DecidableEq K] (s : MapState K V) (ramended : Bool) (d : List (K × Nat))
    (k : K) (va : Nat) : MapState K V :=
  match (if d.isEmpty then none else alookup d k) with
  | some eref =>
    { s with entries := Function.update s.entries eref (storeLocked (s.entries eref) va) }
  | none =>
    if ramended = false then
      let s := dirtyLocked s k va
      match s.readIdx with
      | none => s
      | some ri3 =>
        { s with
          snaps := Function.update s.snaps s.nextSnap ⟨copyList [] (s.snaps ri3).m, true⟩
          nextSnap := s.nextSnap + 1
          readIdx := some s.nextSnap }
    else
      let er := s.nextEntry
      let s := { s with
        entries := Function.update s.entries er ⟨some va, none⟩
        nextEntry := er + 1 }
      { s with dirty := some (ainsert d k er) }

/-- The state `put` produces on a novel key when the snapshot is not yet
amended: the overlay rebuilt by `dirty_locked` (filtered snapshot entries
plus a fresh entry for the key), then a republished copy of the snapshot
with `amended = true`.  Introduced as a name for the corresponding branch of
`putNovel`; the equation is proved below. -/
def rebuildState [DecidableEq K] (s : MapState K V) (k : K) (va ri : Nat) : MapState K V :=
  let t : MapState K V := { s with
    entries := Function.update s.entries s.nextEntry ⟨some va, none⟩
    nextEntry := s.nextEntry + 1
    dirty := some (ainsert (expungeScan s.entries [] (s.snaps ri).m).2 k s.nextEntry) }
  { t with
    snaps := Function.update t.snaps t.nextSnap ⟨copyList [] (t.snaps ri).m, true⟩
    nextSnap := t.nextSnap + 1
    readIdx := some t.nextSnap }

/-- The retry loop of `Map::put` (`src/map.rs`), with the loop-carried
`table` pointer explicit; `fuel` bounds the `continue` edges (two iterations
suffice sequentially: a null table is initialised once, and a null dirty
pointer is allocated once). -/
def putLoop [DecidableEq K] : Nat → MapState K V → Option Nat → K → Nat → MapState K V
  | 0, s, _, _, _ => s
  | fuel + 1, s, table, k, va =>
    match table with
    | none =>
      let s' := initTable s
      putLoop fuel s' s'.readIdx k va
    | some ri =>
      match alookup (s.snaps ri).m k with
      | some eref => putReadHit s k eref va
      | none =>
        match s.dirty with
        | none =>
          let t2 := s.readIdx
          putLoop fuel { s with dirty := some ([] : List (K × Nat)) } t2 k va
        | some d => putNovel s (s.snaps ri).amended d k va

/-- Model of `Map::put` starting from a given loaded `table` pointer: the
value is boxed up front, then the loop runs.  The source loads `table`
before acquiring the mutex, so under concurrency it can be stale; the
sequential `putOp` below instantiates it with the current read pointer. -/
def putFrom [DecidableEq K] (s : MapState K V) (k : K) (v : V) (table : Option Nat) :
    MapState K V :=
  let va := s.nextVal
  let s := { s with vals := Function.update s.vals va v, nextVal := va + 1 }
  putLoop 3 s table k va

/-- Model of `Map::insert`/`Map::put` run by a single thread. -/
def putOp [DecidableEq K] (s : MapState K V) (k : K) (v : V) : MapState K V :=
  putFrom s k v s.readIdx

/-- The retry loop of `Map::remove` (`src/map.rs`).  The only `continue`
edge (a miss on an amended snapshot with a null dirty pointer) reloads the
read pointer and repeats; sequentially that state recurs, so the loop never
terminates there — an unreachable situation, bounded by `fuel`. -/
def removeLoop [DecidableEq K] : Nat → MapState K V → K → MapState K V × Option V
  | 0, s, _ => (s, none)
  | fuel + 1, s, k =>
    match s.readIdx with
    | none => (s, none)
    | some ri =>
      let r := s.snaps ri
      let e := alookup r.m k
      if e = none ∧ r.amended = true then
        let e2 := alookup r.m k
        if e2 = none ∧ r.amended = true then
          match s.dirty with
          | none => removeLoop fuel s k
          | some d =>
            let e3 := alookup d k
            let s := { s with dirty := some (aerase d k) }
            let s := missLocked s
            match e3 with
            | some eref =>
              let rr := entryRemove (s.entries eref)
              let s := { s with entries := Function.update s.entries eref rr.1 }
              (s, rr.2.map s.vals)
            | none => (s, none)
        else (s, none)
      else
        match e with
        | some eref =>
          let rr := entryRemove (s.entries eref)
          let s := { s with entries := Function.update s.entries eref rr.1 }
          (s, rr.2.map s.vals)
        | none => (s, none)

/-- Model of `Map::remove` run by a single thread. -/
def removeOp [DecidableEq K] (s : MapState K V) (k : K) : MapState K V × Option V :=
  removeLoop 2 s k

/-- Model of `Map::clear` (`src/map.rs`): under the mutex, store a fresh
empty overlay, publish a fresh empty snapshot, and CAS the miss counter from
its loaded value to zero (sequentially successful). -/
def clearOp (s : MapState K V) : MapState K V :=
  let s := { s with dirty := some ([] : List (K × Nat)) }
  let s := { s with
    snaps := Function.update s.snaps s.nextSnap ⟨[], false⟩
    nextSnap := s.nextSnap + 1
    readIdx := some s.nextSnap }
  { s with misses := 0 }

/-- A public map operation performed by the single thread. -/
inductive Op (K V : Type) where
  | ins (k : K) (v : V)
  | del (k : K)
  | qry (k : K)
  | clr
deriving DecidableEq

/-- State transition of one operation (results discarded). -/
def step [DecidableEq K] (s : MapState K V) : Op K V → MapState K V
  | .ins k v => putOp s k v
  | .del k => (removeOp s k).1
  | .qry k => (getOp s k).1
  | .clr => clearOp s

/-- State of a freshly constructed map (`Map::with_hasher`): null read and
dirty pointers, zero misses, zero control flag, empty heaps. -/
def initState [Inhabited V] : MapState K V :=
  { readIdx := none
    snaps := fun _ => ⟨[], false⟩
    nextSnap := 0
    dirty := none
    misses := 0
    entries := fun _ => ⟨none, none⟩
    nextEntry := 0
    vals := fun _ => default
    nextVal := 0
    flagCtl := 0 }

/-- Run a list of operations from a given state. -/
def runFrom [DecidableEq K] (s : MapState K V) (ops : List (Op K V)) : MapState K V :=
  ops.foldl step s

/-- Run a list of operations from a fresh map. -/
def run [DecidableEq K] [Inhabited V] (ops : List (Op K V)) : MapState K V :=
  runFrom initState ops

/-- Model of `Map::check_guard` (`src/map.rs`): a guard carries the identity
of its collector (`none` for an unprotected guard, which is accepted); a
guard from another collector trips the assertion. -/
def checkGuard (collectorId : Nat) (g : Option Nat) : Bool :=
  match g with
  | none => true
  | some c => decide (c = collectorId)

/-- Model of `Map::get` including the guard check: `none` means the
assertion panicked. -/
def getChecked [DecidableEq K] (collectorId : Nat) (s : MapState K V) (k : K)
    (g : Option Nat) : Option (MapState K V × Option V) :=
  if checkGuard collectorId g then some (getOp s k) else none

/-- Model of `Map::insert` including the guard check. -/
def insertChecked [DecidableEq K] (collectorId : Nat) (s : MapState K V) (k : K) (v : V)
    (g : Option Nat) : Option (MapState K V) :=
  if checkGuard collectorId g then some (putOp s k v) else none

/-- Model of `Map::remove` including the guard check. -/
def removeChecked [DecidableEq K] (collectorId : Nat) (s : MapState K V) (k : K)
    (g : Option Nat) : Option (MapState K V × Option V) :=
  if checkGuard collectorId g then some (removeOp s k) else none

/-- Model of `Map::clear` including its (absent) guard check: the source's
`clear` never calls `check_guard`, so no guard is rejected. -/
def clearChecked (_collectorId : Nat) (s : MapState K V) (_g : Option Nat) :
    Option (MapState K V) :=
  some (clearOp s)

/-- Keys of an association list are pairwise distinct. -/
def NoDupK [DecidableEq K] (l : List (K × Nat)) : Prop := (l.map Prod.fst).Nodup

instance [DecidableEq K] (l : List (K × Nat)) : Decidable (NoDupK l) := by
  unfold NoDupK
  infer_instance

/-- The key to entry-pointer map of the published snapshot (empty if the
read pointer is null). -/
def readM (s : MapState K V) : List (K × Nat) :=
  match s.readIdx with
  | none => []
  | some ri => (s.snaps ri).m

/-- The `amended` flag of the published snapshot (`false` if the read
pointer is null). -/
def amd (s : MapState K V) : Bool :=
  match s.readIdx with
  | none => false
  | some ri => (s.snaps ri).amended

/-- Entry pointer `e` is associated to key `k` in the published snapshot or
in the dirty overlay. -/
def MemRef [DecidableEq K] (s : MapState K V) (k : K) (e : Nat) : Prop :=
  alookup (readM s) k = some e ∨ ∃ d, s.dirty = some d ∧ alookup d k = some e

/-- Every entry reachable from key `k` has a null value pointer: the key is
logically absent. -/
def Dead [DecidableEq K] (s : MapState K V) (k : K) : Prop :=
  ∀ e, MemRef s k e → (s.entries e).p = none

/-- Every entry cell's `expunged` marker is null. -/
def ExpAll (s : MapState K V) : Prop :=
  ∀ r, (s.entries r).expunged = none

/-- Reachable-state invariant of the sequential model: null expunge markers,
entry references below the allocation bound, distinct keys referencing
distinct entries, the snapshot and overlay agreeing on shared keys, a
non-null overlay whenever the snapshot is amended, key-unique maps, and a
non-negative control flag. -/
def Inv [DecidableEq K] (s : MapState K V) : Prop :=
  ExpAll s ∧
  (∀ k e, MemRef s k e → e < s.nextEntry) ∧
  (∀ k k' e e', k ≠ k' → MemRef s k e → MemRef s k' e' → e ≠ e') ∧
  (∀ k e e' d, alookup (readM s) k = some e → s.dirty = some d →
      alookup d k = some e' → e = e') ∧
  (amd s = true → s.dirty ≠ none) ∧
  NoDupK (readM s) ∧
  (∀ d, s.dirty = some d → NoDupK d) ∧
  0 ≤ s.flagCtl

/-- Shape of the state right after `clear`: the published snapshot exists,
is empty and not amended. -/
def ClearedShape (s : MapState K V) : Prop :=
  ∃ ri, s.readIdx = some ri ∧ (s.snaps ri).m = [] ∧ (s.snaps ri).amended = false

/-- Does the operation insert the given key? -/
def insOn [DecidableEq K] : Op K V → K → Bool
  | .ins k' _, k => decide (k' = k)
  | _, _ => false

/-- Does the operation insert any key? -/
def isIns : Op K V → Bool
  | .ins _ _ => true
  | _ => false

section AssocLemmas

variable [DecidableEq K]

theorem alookup_ainsert (l : List (K × Nat)) (q : K) (r : Nat) (x : K) :
    alookup (ainsert l q r) x = if x = q then some r else alookup l x := by
  induction l with
  | nil => by_cases hx : x = q <;> simp [ainsert, alookup, hx]
  | cons p t ih =>
    obtain ⟨k, v⟩ := p
    by_cases hq : q = k
    · subst hq
      by_cases hx : x = q <;> simp [ainsert, alookup, hx]
    · by_cases hx : x = k
      · subst hx
        have hxq : ¬x = q := fun h => hq h.symm
        simp [ainsert, alookup, hq, hxq]
      · simp [ainsert, alookup, hq, hx, ih]

theorem alookup_aerase (l : List (K × Nat)) (q : K) (x : K) :
    alookup (aerase l q) x = if x = q then none else alookup l x := by
  induction l with
  | nil => by_cases hx : x = q <;> simp [aerase, alookup, hx]
  | cons p t ih =>
    obtain ⟨k, v⟩ := p
    by_cases hq : q = k
    · subst hq
      by_cases hx : x = q
      · subst hx; simp [aerase, alookup, ih]
      · simp [aerase, alookup, hx, ih]
    · by_cases hx : x = k
      · subst hx
        have hxq : ¬x = q := fun h => hq h.symm
        simp [aerase, alookup, hq, hxq]
      · simp [aerase, alookup, hq, hx, ih]

theorem alookup_eq_none (l : List (K × Nat)) (x : K) :
    alookup l x = none ↔ x ∉ l.map Prod.fst := by
  induction l with
  | nil => simp [alookup]
  | cons p t ih =>
    obtain ⟨k, v⟩ := p
    by_cases hx : x = k
    · subst hx; simp [alookup]
    · simp [alookup, hx, ih]

theorem mem_keys_ainsert (l : List (K × Nat)) (q : K) (r : Nat) (x : K) :
    x ∈ (ainsert l q r).map Prod.fst ↔ x ∈ l.map Prod.fst ∨ x = q := by
  induction l with
  | nil => simp [ainsert]
  | cons p t ih =>
    obtain ⟨k, v⟩ := p
    by_cases hq : q = k
    · subst hq
      by_cases hx : x = q <;> simp [ainsert, hx]
    · simp only [ainsert, if_neg hq, List.map_cons, List.mem_cons, ih]
      tauto

theorem nodupk_ainsert {l : List (K × Nat)} (h : NoDupK l) (q : K) (r : Nat) :
    NoDupK (ainsert l q r) := by
  induction l with
  | nil => simp [NoDupK, ainsert]
  | cons p t ih =>
    obtain ⟨k, v⟩ := p
    simp only [NoDupK, List.map_cons, List.nodup_cons] at h
    by_cases hq : q = k
    · subst hq
      simpa [NoDupK, ainsert] using h
    · have ht := ih h.2
      simp only [NoDupK, ainsert, if_neg hq, List.map_cons, List.nodup_cons]
      refine ⟨?_, ht⟩
      rw [mem_keys_ainsert]
      rintro (hmem | hkq)
      · exact h.1 hmem
      · exact hq hkq.symm

theorem mem_keys_aerase {l : List (K × Nat)} {q x : K}
    (h : x ∈ (aerase l q).map Prod.fst) : x ∈ l.map Prod.fst := by
  induction l with
  | nil => simpa [aerase] using h
  | cons p t ih =>
    obtain ⟨k, v⟩ := p
    by_cases hq : q = k
    · simp only [aerase, if_pos hq] at h
      exact List.mem_cons_of_mem _ (ih h)
    · simp only [aerase, if_neg hq, List.map_cons, List.mem_cons] at h
      rcases h with h | h
      · simp [h]
      · exact List.mem_cons_of_mem _ (ih h)

theorem nodupk_aerase {l : List (K × Nat)} (h : NoDupK l) (q : K) :
    NoDupK (aerase l q) := by
  induction l with
  | nil => simpa [NoDupK, aerase] using h
  | cons p t ih =>
    obtain ⟨k, v⟩ := p
    simp only [NoDupK, List.map_cons, List.nodup_cons] at h
    by_cases hq : q = k
    · simp only [NoDupK, aerase, if_pos hq]
      exact ih h.2
    · simp only [NoDupK, aerase, if_neg hq, List.map_cons, List.nodup_cons]
      exact ⟨fun hmem => h.1 (mem_keys_aerase hmem), ih h.2⟩

theorem alookup_copyList_not_mem (l acc : List (K × Nat)) (x : K)
    (h : alookup l x = none) : alookup (copyList acc l) x = alookup acc x := by
  induction l generalizing acc with
  | nil => simp [copyList]
  | cons p t ih =>
    obtain ⟨k, e⟩ := p
    by_cases hx : x = k
    · subst hx; simp [alookup] at h
    · simp only [alookup, if_neg hx] at h
      simp only [copyList]
      rw [ih _ h, alookup_ainsert, if_neg hx]

theorem alookup_copyList_some {l : List (K × Nat)} (acc : List (K × Nat)) {x : K} {e : Nat}
    (hnd : NoDupK l) (h : alookup l x = some e) :
    alookup (copyList acc l) x = some e := by
  induction l generalizing acc with
  | nil => simp [alookup] at h
  | cons p t ih =>
    obtain ⟨k, v⟩ := p
    simp only [NoDupK, List.map_cons, List.nodup_cons] at hnd
    by_cases hx : x = k
    · subst hx
      have hv : v = e := by simpa [alookup] using h
      subst hv
      have ht : alookup t x = none := (alookup_eq_none t x).2 hnd.1
      simp only [copyList]
      rw [alookup_copyList_not_mem _ _ _ ht, alookup_ainsert, if_pos rfl]
    · simp only [alookup, if_neg hx] at h
      simp only [copyList]
      exact ih _ hnd.2 h

theorem alookup_copyList_nil (l : List (K × Nat)) (hnd : NoDupK l) (x : K) :
    alookup (copyList [] l) x = alookup l x := by
  cases h : alookup l x with
  | none => rw [alookup_copyList_not_mem _ _ _ h]; simp [alookup]
  | some e => exact alookup_copyList_some _ hnd h

theorem nodupk_copyList (l : List (K × Nat)) {acc : List (K × Nat)} (h : NoDupK acc) :
    NoDupK (copyList acc l) := by
  induction l generalizing acc with
  | nil => simpa [copyList] using h
  | cons p t ih =>
    obtain ⟨k, e⟩ := p
    simp only [copyList]
    exact ih (nodupk_ainsert h k e)

theorem entry_ext {e : EntrySt} {pp qq : Option Nat} (h1 : e.p = pp)
    (h2 : e.expunged = qq) : e = ⟨pp, qq⟩ := by
  cases e
  simp_all

theorem expungeScan_spec (l : List (K × Nat)) (ents : Nat → EntrySt)
    (acc : List (K × Nat)) (hexp : ∀ r, (ents r).expunged = none) (hnd : NoDupK l)
    (hacc : ∀ p ∈ l, alookup acc p.1 = none) :
    (expungeScan ents acc l).1 = ents ∧
    (∀ x e, alookup l x = some e →
      alookup (expungeScan ents acc l).2 x =
        if (ents e).p = none then none else some e) ∧
    (∀ x, alookup l x = none → alookup (expungeScan ents acc l).2 x = alookup acc x) := by
  induction l generalizing ents acc with
  | nil =>
    refine ⟨rfl, ?_, ?_⟩
    · intro x e h; simp [alookup] at h
    · intro x _; rfl
  | cons p t ih =>
    obtain ⟨k, e⟩ := p
    simp only [NoDupK, List.map_cons, List.nodup_cons] at hnd
    have hk_t : alookup t k = none := (alookup_eq_none t k).2 hnd.1
    cases hp : (ents e).p with
    | none =>
      have hee : ents e = ⟨none, none⟩ := entry_ext hp (hexp e)
      have hstep : tryUnexpunge (ents e) = (ents e, true) := by
        rw [hee]; simp [tryUnexpunge]
      have hupd : Function.update ents e (ents e) = ents := Function.update_eq_self e ents
      have hrec := ih ents acc hexp hnd.2 (fun q hq => hacc q (List.mem_cons_of_mem _ hq))
      have hES : expungeScan ents acc ((k, e) :: t) = expungeScan ents acc t := by
        simp [expungeScan, hstep, hupd]
      refine ⟨by rw [hES]; exact hrec.1, ?_, ?_⟩
      · intro x e' hx
        by_cases hxk : x = k
        · subst hxk
          have hv : e = e' := by simpa [alookup] using hx
          subst hv
          rw [hES, hrec.2.2 x hk_t, hacc (x, e) (by simp), if_pos hp]
        · simp only [alookup, if_neg hxk] at hx
          rw [hES]
          exact hrec.2.1 x e' hx
      · intro x hx
        by_cases hxk : x = k
        · subst hxk; simp [alookup] at hx
        · simp only [alookup, if_neg hxk] at hx
          rw [hES]
          exact hrec.2.2 x hx
    | some a =>
      have hstep : tryUnexpunge (ents e) = (ents e, false) := by
        simp [tryUnexpunge, hp, hexp e]
      have hupd : Function.update ents e (ents e) = ents := Function.update_eq_self e ents
      have hacc' : ∀ q ∈ t, alookup (ainsert acc k e) q.1 = none := by
        intro q hq
        rw [alookup_ainsert]
        have hqk : ¬q.1 = k := by
          intro hqk
          exact hnd.1 (hqk ▸ List.mem_map_of_mem Prod.fst hq)
        rw [if_neg hqk]
        exact hacc q (List.mem_cons_of_mem _ hq)
      have hrec := ih ents (ainsert acc k e) hexp hnd.2 hacc'
      have hES : expungeScan ents acc ((k, e) :: t) = expungeScan ents (ainsert acc k e) t := by
        simp [expungeScan, hstep, hupd]
      refine ⟨by rw [hES]; exact hrec.1, ?_, ?_⟩
      · intro x e' hx
        by_cases hxk : x = k
        · subst hxk
          have hv : e = e' := by simpa [alookup] using hx
          subst hv
          rw [hES, hrec.2.2 x hk_t, alookup_ainsert, if_pos rfl, if_neg (by simp [hp])]
        · simp only [alookup, if_neg hxk] at hx
          rw [hES]
          exact hrec.2.1 x e' hx
      · intro x hx
        by_cases hxk : x = k
        · subst hxk; simp [alookup] at hx
        · simp only [alookup, if_neg hxk] at hx
          rw [hES, hrec.2.2 x hx, alookup_ainsert, if_neg hxk]

theorem nodupk_expungeScan (l : List (K × Nat)) (ents : Nat → EntrySt)
    (acc : List (K × Nat)) (h : NoDupK acc) : NoDupK (expungeScan ents acc l).2 := by
  induction l generalizing ents acc with
  | nil => simpa [expungeScan] using h
  | cons p t ih =>
    obtain ⟨k, e⟩ := p
    simp only [expungeScan]
    cases hb : (tryUnexpunge (ents e)).2
    · simp only [Bool.false_eq_true, if_false]
      exact ih _ _ (nodupk_ainsert h k e)
    · simp only [if_true]
      exact ih _ _ h

end AssocLemmas

section StateLemmas

variable [DecidableEq K] {s : MapState K V} {k : K}

theorem missLocked_none_dirty (hd : s.dirty = none) :
    missLocked s = { s with misses := s.misses + 1 } := by
  simp [missLocked, hd]

theorem missLocked_keep {d : List (K × Nat)} (hd : s.dirty = some d)
    (hlt : s.misses < d.length) :
    missLocked s = { s with misses := s.misses + 1 } := by
  simp [missLocked, hd, hlt]

theorem missLocked_promote {d : List (K × Nat)} (hd : s.dirty = some d)
    (hge : ¬s.misses < d.length) :
    missLocked s = { s with
      snaps := Function.update s.snaps s.nextSnap ⟨copyList [] d, false⟩
      nextSnap := s.nextSnap + 1
      readIdx := some s.nextSnap
      dirty := none
      misses := 0 } := by
  simp [missLocked, hd, hge]

theorem memref_promote {d : List (K × Nat)} (hndd : NoDupK d) {kk : K} {ee : Nat}
    (hm : MemRef { s with
      snaps := Function.update s.snaps s.nextSnap ⟨copyList [] d, false⟩
      nextSnap := s.nextSnap + 1
      readIdx := some s.nextSnap
      dirty := none
      misses := 0 } kk ee) :
    alookup d kk = some ee := by
  rcases hm with hm | ⟨d0, hd0, _⟩
  · have h1 : alookup (copyList [] d) kk = some ee := by
      simpa [readM, Function.update_same] using hm
    rwa [alookup_copyList_nil _ hndd] at h1
  · exact absurd hd0 (by simp)

theorem inv_promote {d : List (K × Nat)} (h : Inv s) (hd : s.dirty = some d) :
    Inv { s with
      snaps := Function.update s.snaps s.nextSnap ⟨copyList [] d, false⟩
      nextSnap := s.nextSnap + 1
      readIdx := some s.nextSnap
      dirty := none
      misses := 0 } := by
  obtain ⟨hE, hF, hI, hS, _hA, _hndR, hndD, hflag⟩ := h
  have hndd := hndD d hd
  refine ⟨hE, ?_, ?_, ?_, ?_, ?_, ?_, hflag⟩
  · intro kk ee hm
    exact hF kk ee (Or.inr ⟨d, hd, memref_promote hndd hm⟩)
  · intro kk kk' ee ee' hne hm hm'
    exact hI kk kk' ee ee' hne (Or.inr ⟨d, hd, memref_promote hndd hm⟩)
      (Or.inr ⟨d, hd, memref_promote hndd hm'⟩)
  · intro kk ee ee' d0 _ hd0
    exact absurd hd0 (by simp)
  · intro ha
    simp [amd, Function.update_same] at ha
  · simp only [readM, Function.update_same]
    exact nodupk_copyList _ (by simp [NoDupK])
  · intro d0 hd0
    exact absurd hd0 (by simp)

theorem inv_missLocked (h : Inv s) : Inv (missLocked s) := by
  cases hd : s.dirty with
  | none =>
    obtain ⟨hE, hF, hI, hS, hA, hndR, hndD, hflag⟩ := h
    rw [missLocked_none_dirty hd]
    exact ⟨hE, hF, hI, hS, fun ha => absurd hd (hA ha), hndR, hndD, hflag⟩
  | some d =>
    by_cases hlt : s.misses < d.length
    · obtain ⟨hE, hF, hI, hS, hA, hndR, hndD, hflag⟩ := h
      rw [missLocked_keep hd hlt]
      exact ⟨hE, hF, hI, hS, fun _ => by simp [hd], hndR, hndD, hflag⟩
    · rw [missLocked_promote hd hlt]
      exact inv_promote h hd

theorem dead_missLocked (h : Inv s) (hdead : Dead s k) : Dead (missLocked s) k := by
  cases hd : s.dirty with
  | none =>
    rw [missLocked_none_dirty hd]
    exact hdead
  | some d =>
    by_cases hlt : s.misses < d.length
    · rw [missLocked_keep hd hlt]
      exact hdead
    · rw [missLocked_promote hd hlt]
      intro ee hm
      exact hdead ee (Or.inr ⟨d, hd, memref_promote (h.2.2.2.2.2.2.1 d hd) hm⟩)

theorem inv_clearOp (h : Inv s) : Inv (clearOp s) := by
  obtain ⟨hE, _, _, _, _, _, _, hflag⟩ := h
  refine ⟨hE, ?_, ?_, ?_, ?_, ?_, ?_, hflag⟩
  · intro kk ee hm
    rcases hm with hm | ⟨d0, hd0, hl0⟩
    · simp [readM, clearOp, Function.update_same, alookup] at hm
    · simp only [clearOp] at hd0
      cases hd0
      simp [alookup] at hl0
  · intro kk kk' ee ee' _ hm _
    rcases hm with hm | ⟨d0, hd0, hl0⟩
    · simp [readM, clearOp, Function.update_same, alookup] at hm
    · simp only [clearOp] at hd0
      cases hd0
      simp [alookup] at hl0
  · intro kk ee ee' d0 hre _
    simp [readM, clearOp, Function.update_same, alookup] at hre
  · intro ha
    simp [amd, clearOp, Function.update_same] at ha
  · simp [readM, clearOp, Function.update_same, NoDupK]
  · intro d0 hd0
    simp only [clearOp] at hd0
    cases hd0
    simp [NoDupK]

theorem dead_clearOp : Dead (clearOp s) k := by
  intro ee hm
  rcases hm with hm | ⟨d0, hd0, hl0⟩
  · simp [readM, clearOp, Function.update_same, alookup] at hm
  · simp only [clearOp] at hd0
    cases hd0
    simp [alookup] at hl0

theorem initTable_of_some {ri : Nat} (h : s.readIdx = some ri) : initTable s = s := by
  simp [initTable, h]

theorem initTable_of_none_neg (h : s.readIdx = none) (hf : s.flagCtl < 0) :
    initTable s = s := by
  simp [initTable, h, hf]

theorem initTable_of_none (h : s.readIdx = none) (hf : ¬s.flagCtl < 0) :
    initTable s = { s with
      snaps := Function.update s.snaps s.nextSnap ⟨[], false⟩
      nextSnap := s.nextSnap + 1
      readIdx := some s.nextSnap
      dirty := some []
      flagCtl := loadFactor (if 0 < s.flagCtl then s.flagCtl else 1) } := by
  simp [initTable, h, hf]

theorem inv_initTable (h : Inv s) : Inv (initTable s) := by
  cases hri : s.readIdx with
  | some ri => rw [initTable_of_some hri]; exact h
  | none =>
    by_cases hf : s.flagCtl < 0
    · rw [initTable_of_none_neg hri hf]; exact h
    · rw [initTable_of_none hri hf]
      obtain ⟨hE, _, _, _, _, _, _, hflag⟩ := h
      refine ⟨hE, ?_, ?_, ?_, ?_, ?_, ?_, ?_⟩
      · intro kk ee hm
        rcases hm with hm | ⟨d0, hd0, hl0⟩
        · simp [readM, Function.update_same, alookup] at hm
        · cases hd0
          simp [alookup] at hl0
      · intro kk kk' ee ee' _ hm _
        rcases hm with hm | ⟨d0, hd0, hl0⟩
        · simp [readM, Function.update_same, alookup] at hm
        · cases hd0
          simp [alookup] at hl0
      · intro kk ee ee' d0 hre _
        simp [readM, Function.update_same, alookup] at hre
      · intro ha
        simp [amd, Function.update_same] at ha
      · simp [readM, Function.update_same, NoDupK]
      · intro d0 hd0
        cases hd0
        simp [NoDupK]
      · show 0 ≤ loadFactor (if 0 < s.flagCtl then s.flagCtl else 1)
        unfold loadFactor
        by_cases hpos : 0 < s.flagCtl
        · rw [if_pos hpos]; omega
        · rw [if_neg hpos]; omega

theorem dead_initTable (hdead : Dead s k) : Dead (initTable s) k := by
  cases hri : s.readIdx with
  | some ri => rw [initTable_of_some hri]; exact hdead
  | none =>
    by_cases hf : s.flagCtl < 0
    · rw [initTable_of_none_neg hri hf]; exact hdead
    · rw [initTable_of_none hri hf]
      intro ee hm
      rcases hm with hm | ⟨d0, hd0, hl0⟩
      · simp [readM, Function.update_same, alookup] at hm
      · cases hd0
        simp [alookup] at hl0

theorem entryRemove_p (e : EntrySt) : (entryRemove e).1.p = none := by
  cases hp : e.p <;> simp [entryRemove, hp]

theorem entryRemove_expunged (e : EntrySt) : (entryRemove e).1.expunged = e.expunged := by
  cases hp : e.p <;> simp [entryRemove, hp]

theorem entryRemove_none {e : EntrySt} (h : e.p = none) : entryRemove e = (e, none) := by
  simp [entryRemove, h]

theorem entryRemove_some {e : EntrySt} {a : Nat} (h : e.p = some a) :
    entryRemove e = ({ e with p := none }, some a) := by
  simp [entryRemove, h]

theorem missLocked_entries (s : MapState K V) : (missLocked s).entries = s.entries := by
  cases hd : s.dirty with
  | none => rw [missLocked_none_dirty hd]
  | some d =>
    by_cases hlt : s.misses < d.length
    · rw [missLocked_keep hd hlt]
    · rw [missLocked_promote hd hlt]

theorem missLocked_vals (s : MapState K V) : (missLocked s).vals = s.vals := by
  cases hd : s.dirty with
  | none => rw [missLocked_none_dirty hd]
  | some d =>
    by_cases hlt : s.misses < d.length
    · rw [missLocked_keep hd hlt]
    · rw [missLocked_promote hd hlt]

theorem readM_eq {ri : Nat} (hri : s.readIdx = some ri) : readM s = (s.snaps ri).m := by
  simp [readM, hri]

theorem amd_eq {ri : Nat} (hri : s.readIdx = some ri) : amd s = (s.snaps ri).amended := by
  simp [amd, hri]

theorem expAll_update {ents : Nat → EntrySt} (h : ∀ r, (ents r).expunged = none)
    {i : Nat} {X : EntrySt} (hX : X.expunged = none) :
    ∀ r, ((Function.update ents i X) r).expunged = none := by
  intro r
  by_cases hr : r = i
  · subst hr; simp [Function.update_same, hX]
  · simp [Function.update_noteq hr, h r]

theorem getOp_state (s : MapState K V) (k : K) :
    (getOp s k).1 = s ∨ (getOp s k).1 = missLocked s := by
  unfold getOp
  cases hri : s.readIdx with
  | none => simp
  | some ri =>
    by_cases hc : alookup (s.snaps ri).m k = none ∧ (s.snaps ri).amended = true
    · cases hd : s.dirty with
      | none => simp [hc, hd]
      | some d => simp [hc, hd]
    · simp [hc]

theorem inv_getOp (h : Inv s) : Inv (getOp s k).1 := by
  rcases getOp_state s k with hg | hg <;> rw [hg]
  · exact h
  · exact inv_missLocked h

theorem dead_getOp (h : Inv s) {kd : K} (hdead : Dead s kd) : Dead (getOp s k).1 kd := by
  rcases getOp_state s k with hg | hg <;> rw [hg]
  · exact hdead
  · exact dead_missLocked h hdead

theorem removeOp_none_read (h : s.readIdx = none) : removeOp s k = (s, none) := by
  simp [removeOp, removeLoop, h]

theorem removeOp_read_hit {ri eref : Nat} (hri : s.readIdx = some ri)
    (he : alookup (s.snaps ri).m k = some eref) :
    removeOp s k =
      ({ s with entries := Function.update s.entries eref (entryRemove (s.entries eref)).1 },
        ((entryRemove (s.entries eref)).2).map s.vals) := by
  simp [removeOp, removeLoop, hri, he]

theorem removeOp_read_miss_quiet {ri : Nat} (hri : s.readIdx = some ri)
    (he : alookup (s.snaps ri).m k = none) (ha : (s.snaps ri).amended = false) :
    removeOp s k = (s, none) := by
  simp [removeOp, removeLoop, hri, he, ha]

theorem removeOp_amended_nodirty {ri : Nat} (hri : s.readIdx = some ri)
    (he : alookup (s.snaps ri).m k = none) (ha : (s.snaps ri).amended = true)
    (hd : s.dirty = none) :
    removeOp s k = (s, none) := by
  simp [removeOp, removeLoop, hri, he, ha, hd]

theorem removeOp_dirty_hit {ri : Nat} {d : List (K × Nat)} {eref : Nat}
    (hri : s.readIdx = some ri) (he : alookup (s.snaps ri).m k = none)
    (ha : (s.snaps ri).amended = true) (hd : s.dirty = some d)
    (he3 : alookup d k = some eref) :
    removeOp s k =
      (let s2 := missLocked { s with dirty := some (aerase d k) }
       ({ s2 with entries := Function.update s2.entries eref (entryRemove (s2.entries eref)).1 },
        ((entryRemove (s2.entries eref)).2).map s2.vals)) := by
  simp [removeOp, removeLoop, hri, he, ha, hd, he3]

theorem removeOp_dirty_miss {ri : Nat} {d : List (K × Nat)}
    (hri : s.readIdx = some ri) (he : alookup (s.snaps ri).m k = none)
    (ha : (s.snaps ri).amended = true) (hd : s.dirty = some d)
    (he3 : alookup d k = none) :
    removeOp s k = (missLocked { s with dirty := some (aerase d k) }, none) := by
  simp [removeOp, removeLoop, hri, he, ha, hd, he3]

theorem inv_del_dirty {d : List (K × Nat)} (h : Inv s) (hd : s.dirty = some d) :
    Inv { s with dirty := some (aerase d k) } := by
  obtain ⟨hE, hF, hI, hS, hA, hndR, hndD, hflag⟩ := h
  have htrans : ∀ {kk : K} {ee : Nat},
      MemRef { s with dirty := some (aerase d k) } kk ee → MemRef s kk ee := by
    intro kk ee hm
    rcases hm with hm | ⟨d0, hd0, hl0⟩
    · exact Or.inl hm
    · cases hd0
      rw [alookup_aerase] at hl0
      by_cases hkk : kk = k
      · rw [if_pos hkk] at hl0; cases hl0
      · rw [if_neg hkk] at hl0
        exact Or.inr ⟨d, hd, hl0⟩
  refine ⟨hE, ?_, ?_, ?_, ?_, hndR, ?_, hflag⟩
  · intro kk ee hm
    exact hF kk ee (htrans hm)
  · intro kk kk' ee ee' hne hm hm'
    exact hI kk kk' ee ee' hne (htrans hm) (htrans hm')
  · intro kk ee ee' d0 hre hd0 hl0
    cases hd0
    rw [alookup_aerase] at hl0
    by_cases hkk : kk = k
    · rw [if_pos hkk] at hl0; cases hl0
    · rw [if_neg hkk] at hl0
      exact hS kk ee ee' d hre hd hl0
  · intro ha
    simp
  · intro d0 hd0
    cases hd0
    exact nodupk_aerase (hndD d hd) k

theorem dead_del_dirty {d : List (K × Nat)} {kd : K} (hdead : Dead s kd)
    (hd : s.dirty = some d) : Dead { s with dirty := some (aerase d k) } kd := by
  intro ee hm
  rcases hm with hm | ⟨d0, hd0, hl0⟩
  · exact hdead ee (Or.inl hm)
  · cases hd0
    rw [alookup_aerase] at hl0
    by_cases hkk : kd = k
    · rw [if_pos hkk] at hl0; cases hl0
    · rw [if_neg hkk] at hl0
      exact hdead ee (Or.inr ⟨d, hd, hl0⟩)

theorem dead_update_removed {kd : K} (hdead : Dead s kd) {eref : Nat} {X : EntrySt}
    (hX : X.p = none) :
    Dead { s with entries := Function.update s.entries eref X } kd := by
  intro ee hm
  by_cases he : ee = eref
  · subst he; simp [Function.update_same, hX]
  · simp only [Function.update_noteq he]
    exact hdead ee hm

theorem inv_update_entry (h : Inv s) {eref : Nat} {X : EntrySt}
    (hX : X.expunged = none) :
    Inv { s with entries := Function.update s.entries eref X } := by
  obtain ⟨hE, hF, hI, hS, hA, hndR, hndD, hflag⟩ := h
  exact ⟨expAll_update hE hX, hF, hI, hS, hA, hndR, hndD, hflag⟩

theorem inv_removeOp (h : Inv s) : Inv (removeOp s k).1 := by
  cases hri : s.readIdx with
  | none => rw [removeOp_none_read hri]; exact h
  | some ri =>
    cases he : alookup (s.snaps ri).m k with
    | some eref =>
      rw [removeOp_read_hit hri he]
      exact inv_update_entry h (by rw [entryRemove_expunged]; exact h.1 eref)
    | none =>
      cases ha : (s.snaps ri).amended with
      | false => rw [removeOp_read_miss_quiet hri he ha]; exact h
      | true =>
        cases hd : s.dirty with
        | none => rw [removeOp_amended_nodirty hri he ha hd]; exact h
        | some d =>
          have h1 : Inv (missLocked { s with dirty := some (aerase d k) }) :=
            inv_missLocked (inv_del_dirty h hd)
          cases he3 : alookup d k with
          | some eref =>
            rw [removeOp_dirty_hit hri he ha hd he3]
            exact inv_update_entry h1 (by rw [entryRemove_expunged]; exact h1.1 eref)
          | none =>
            rw [removeOp_dirty_miss hri he ha hd he3]
            exact h1

theorem dead_removeOp (h : Inv s) {kd : K} (hdead : Dead s kd) :
    Dead (removeOp s k).1 kd := by
  cases hri : s.readIdx with
  | none => rw [removeOp_none_read hri]; exact hdead
  | some ri =>
    cases he : alookup (s.snaps ri).m k with
    | some eref =>
      rw [removeOp_read_hit hri he]
      exact dead_update_removed hdead (entryRemove_p _)
    | none =>
      cases ha : (s.snaps ri).amended with
      | false => rw [removeOp_read_miss_quiet hri he ha]; exact hdead
      | true =>
        cases hd : s.dirty with
        | none => rw [removeOp_amended_nodirty hri he ha hd]; exact hdead
        | some d =>
          have h1 : Dead (missLocked { s with dirty := some (aerase d k) }) kd :=
            dead_missLocked (inv_del_dirty h hd) (dead_del_dirty hdead hd)
          cases he3 : alookup d k with
          | some eref =>
            rw [removeOp_dirty_hit hri he ha hd he3]
            exact dead_update_removed h1 (entryRemove_p _)
          | none =>
            rw [removeOp_dirty_miss hri he ha hd he3]
            exact h1

theorem dead_remove_none (h : Inv s) (hdead : Dead s k) : (removeOp s k).2 = none := by
  cases hri : s.readIdx with
  | none => rw [removeOp_none_read hri]
  | some ri =>
    cases he : alookup (s.snaps ri).m k with
    | some eref =>
      rw [removeOp_read_hit hri he]
      have hp : (s.entries eref).p = none :=
        hdead eref (Or.inl (by rw [readM_eq hri]; exact he))
      simp [entryRemove_none hp]
    | none =>
      cases ha : (s.snaps ri).amended with
      | false => rw [removeOp_read_miss_quiet hri he ha]
      | true =>
        cases hd : s.dirty with
        | none => rw [removeOp_amended_nodirty hri he ha hd]
        | some d =>
          cases he3 : alookup d k with
          | some eref =>
            rw [removeOp_dirty_hit hri he ha hd he3]
            have hp : (s.entries eref).p = none :=
              hdead eref (Or.inr ⟨d, hd, he3⟩)
            have hp2 : ((missLocked { s with dirty := some (aerase d k) }).entries eref).p
                = none := by
              rw [missLocked_entries]; exact hp
            simp [entryRemove_none hp2]
          | none =>
            rw [removeOp_dirty_miss hri he ha hd he3]

theorem dead_get_none (h : Inv s) (hdead : Dead s k) : (getOp s k).2 = none := by
  unfold getOp
  cases hri : s.readIdx with
  | none => rfl
  | some ri =>
    cases he : alookup (s.snaps ri).m k with
    | some eref =>
      have hp : (s.entries eref).p = none :=
        hdead eref (Or.inl (by rw [readM_eq hri]; exact he))
      simp [he, entryLoadV, entryLoad, hp]
    | none =>
      cases ha : (s.snaps ri).amended with
      | false => simp [he, ha, entryLoadV]
      | true =>
        cases hd : s.dirty with
        | none => simp [he, ha, hd]
        | some d =>
          cases he3 : alookup d k with
          | none => simp [he, ha, hd, he3, entryLoadV]
          | some eref =>
            have hp : (s.entries eref).p = none :=
              hdead eref (Or.inr ⟨d, hd, he3⟩)
            have hp2 : ((missLocked s).entries eref).p = none := by
              rw [missLocked_entries]; exact hp
            simp [he, ha, hd, he3, entryLoadV, entryLoad, hp2]

theorem putReadHit_store {eref va : Nat}
    (hne : ¬(s.entries eref).p = (s.entries eref).expunged) :
    putReadHit s k eref va =
      { s with entries :=
          Function.update s.entries eref ⟨some va, (s.entries eref).expunged⟩ } := by
  unfold putReadHit
  simp [tryStore, hne]

theorem putReadHit_expunged {ri2 eref va : Nat} (hri : s.readIdx = some ri2)
    (hpe : (s.entries eref).p = (s.entries eref).expunged) :
    putReadHit s k eref va =
      { s with
        snaps := Function.update s.snaps ri2
          ⟨ainsert (s.snaps ri2).m k eref, (s.snaps ri2).amended⟩
        entries := Function.update s.entries eref ⟨some va, none⟩ } := by
  unfold putReadHit
  simp [tryStore, hpe, unexpungeLocked, storeLocked, hri, Function.update_eq_self,
    Function.update_same, Function.update_idem]

theorem dirtyLocked_eq {ri : Nat} {d0 : List (K × Nat)} {va : Nat}
    (hE : ExpAll s) (hndR : NoDupK (readM s))
    (hd : s.dirty = some d0) (hri : s.readIdx = some ri) :
    dirtyLocked s k va = { s with
      entries := Function.update s.entries s.nextEntry ⟨some va, none⟩
      nextEntry := s.nextEntry + 1
      dirty := some (ainsert (expungeScan s.entries [] (s.snaps ri).m).2 k s.nextEntry) } := by
  have hsc := (expungeScan_spec (s.snaps ri).m s.entries [] hE
    (by rwa [readM_eq hri] at hndR) (fun q _ => rfl)).1
  unfold dirtyLocked
  rw [hd, hri]
  simp only [hsc]

theorem putNovel_dirty_hit {ramended : Bool} {d : List (K × Nat)} {eref va : Nat}
    (hne : ¬d.isEmpty) (he3 : alookup d k = some eref) :
    putNovel s ramended d k va =
      { s with entries :=
          Function.update s.entries eref ⟨some va, (s.entries eref).expunged⟩ } := by
  unfold putNovel
  simp [hne, he3, storeLocked]

theorem putNovel_fresh {d : List (K × Nat)} {va : Nat}
    (hmiss : (if d.isEmpty then none else alookup d k) = none) :
    putNovel s true d k va =
      { s with
        entries := Function.update s.entries s.nextEntry ⟨some va, none⟩
        nextEntry := s.nextEntry + 1
        dirty := some (ainsert d k s.nextEntry) } := by
  unfold putNovel
  rw [hmiss]
  simp

theorem putNovel_rebuild {ri : Nat} {d d0 : List (K × Nat)} {va : Nat}
    (hE : ExpAll s) (hndR : NoDupK (readM s))
    (hd : s.dirty = some d0) (hri : s.readIdx = some ri)
    (hmiss : (if d.isEmpty then none else alookup d k) = none) :
    putNovel s false d k va = rebuildState s k va ri := by
  unfold putNovel rebuildState
  rw [hmiss, dirtyLocked_eq hE hndR hd hri]
  have h2 : ({ s with
      entries := Function.update s.entries s.nextEntry ⟨some va, none⟩
      nextEntry := s.nextEntry + 1
      dirty := some (ainsert (expungeScan s.entries [] (s.snaps ri).m).2 k s.nextEntry)
      : MapState K V }).readIdx = some ri := hri
  rw [h2]
  simp

theorem inv_set_dirty_nil (h : Inv s) : Inv { s with dirty := some ([] : List (K × Nat)) } := by
  obtain ⟨hE, hF, hI, hS, hA, hndR, hndD, hflag⟩ := h
  have htrans : ∀ {kk : K} {ee : Nat},
      MemRef { s with dirty := some ([] : List (K × Nat)) } kk ee → MemRef s kk ee := by
    intro kk ee hm
    rcases hm with hm | ⟨d0, hd0, hl0⟩
    · exact Or.inl hm
    · cases hd0
      simp [alookup] at hl0
  refine ⟨hE, ?_, ?_, ?_, ?_, hndR, ?_, hflag⟩
  · intro kk ee hm; exact hF kk ee (htrans hm)
  · intro kk kk' ee ee' hne hm hm'; exact hI kk kk' ee ee' hne (htrans hm) (htrans hm')
  · intro kk ee ee' d0 hre hd0 hl0
    cases hd0
    simp [alookup] at hl0
  · intro _; simp
  · intro d0 hd0
    cases hd0
    simp [NoDupK]

theorem dead_set_dirty_nil {kd : K} (hdead : Dead s kd) :
    Dead { s with dirty := some ([] : List (K × Nat)) } kd := by
  intro ee hm
  rcases hm with hm | ⟨d0, hd0, hl0⟩
  · exact hdead ee (Or.inl hm)
  · cases hd0
    simp [alookup] at hl0

theorem inv_readwrite (h : Inv s) {ri2 : Nat} (hri : s.readIdx = some ri2)
    {m2 : List (K × Nat)} (hlook : ∀ x, alookup m2 x = alookup (s.snaps ri2).m x)
    (hnd2 : NoDupK m2) {eref : Nat} {X : EntrySt} (hX : X.expunged = none) :
    Inv { s with
      snaps := Function.update s.snaps ri2 ⟨m2, (s.snaps ri2).amended⟩
      entries := Function.update s.entries eref X } := by
  obtain ⟨hE, hF, hI, hS, hA, hndR, hndD, hflag⟩ := h
  have hrm : readM { s with
      snaps := Function.update s.snaps ri2 ⟨m2, (s.snaps ri2).amended⟩
      entries := Function.update s.entries eref X } = m2 := by
    rw [readM_eq (s := { s with
      snaps := Function.update s.snaps ri2 ⟨m2, (s.snaps ri2).amended⟩
      entries := Function.update s.entries eref X }) hri]
    simp [Function.update_same]
  have htrans : ∀ {kk : K} {ee : Nat},
      MemRef { s with
        snaps := Function.update s.snaps ri2 ⟨m2, (s.snaps ri2).amended⟩
        entries := Function.update s.entries eref X } kk ee → MemRef s kk ee := by
    intro kk ee hm
    rcases hm with hm | ⟨d0, hd0, hl0⟩
    · rw [hrm, hlook] at hm
      exact Or.inl (by rw [readM_eq hri]; exact hm)
    · exact Or.inr ⟨d0, hd0, hl0⟩
  refine ⟨expAll_update hE hX, ?_, ?_, ?_, ?_, ?_, hndD, hflag⟩
  · intro kk ee hm; exact hF kk ee (htrans hm)
  · intro kk kk' ee ee' hne hm hm'; exact hI kk kk' ee ee' hne (htrans hm) (htrans hm')
  · intro kk ee ee' d0 hre hd0 hl0
    rw [hrm, hlook] at hre
    exact hS kk ee ee' d0 (by rw [readM_eq hri]; exact hre) hd0 hl0
  · intro ha
    have : amd s = true := by
      rw [amd_eq hri]
      rw [amd_eq (s := { s with
        snaps := Function.update s.snaps ri2 ⟨m2, (s.snaps ri2).amended⟩
        entries := Function.update s.entries eref X }) hri] at ha
      simpa [Function.update_same] using ha
    exact hA this
  · rw [hrm]; exact hnd2

theorem dead_transfer {kd : K} {t : MapState K V} (hdead : Dead s kd)
    (htrans : ∀ {ee : Nat}, MemRef t kd ee → MemRef s kd ee)
    (hent : ∀ ee, MemRef s kd ee → (t.entries ee).p = (s.entries ee).p) :
    Dead t kd := by
  intro ee hm
  have hm' := htrans hm
  rw [hent ee hm']
  exact hdead ee hm'

theorem memref_fresh_dirty {d : List (K × Nat)} {va : Nat} (hd : s.dirty = some d)
    {kk : K} {ee : Nat}
    (hm : MemRef { s with
      entries := Function.update s.entries s.nextEntry ⟨some va, none⟩
      nextEntry := s.nextEntry + 1
      dirty := some (ainsert d k s.nextEntry) } kk ee) :
    MemRef s kk ee ∨ (kk = k ∧ ee = s.nextEntry) := by
  rcases hm with hm | ⟨d0, hd0, hl0⟩
  · exact Or.inl (Or.inl hm)
  · cases hd0
    rw [alookup_ainsert] at hl0
    by_cases hkk : kk = k
    · rw [if_pos hkk] at hl0
      right
      exact ⟨hkk, (Option.some.inj hl0).symm⟩
    · rw [if_neg hkk] at hl0
      exact Or.inl (Or.inr ⟨d, hd, hl0⟩)

theorem inv_fresh_dirty (h : Inv s) {ri : Nat} (hri : s.readIdx = some ri)
    (he : alookup (s.snaps ri).m k = none) {d : List (K × Nat)} (hd : s.dirty = some d)
    {va : Nat} :
    Inv { s with
      entries := Function.update s.entries s.nextEntry ⟨some va, none⟩
      nextEntry := s.nextEntry + 1
      dirty := some (ainsert d k s.nextEntry) } := by
  obtain ⟨hE, hF, hI, hS, hA, hndR, hndD, hflag⟩ := h
  refine ⟨expAll_update hE rfl, ?_, ?_, ?_, ?_, hndR, ?_, hflag⟩
  · intro kk ee hm
    rcases memref_fresh_dirty hd hm with hm' | ⟨_, hee⟩
    · exact Nat.lt_succ_of_lt (hF kk ee hm')
    · subst hee; exact Nat.lt_succ_self _
  · intro kk kk' ee ee' hne hm hm'
    rcases memref_fresh_dirty hd hm with h1 | ⟨hk1, he1⟩ <;>
      rcases memref_fresh_dirty hd hm' with h2 | ⟨hk2, he2⟩
    · exact hI kk kk' ee ee' hne h1 h2
    · subst he2
      intro hEq
      exact absurd (hEq ▸ hF kk ee h1) (lt_irrefl _)
    · subst he1
      intro hEq
      exact absurd (hEq ▸ hF kk' ee' h2) (lt_irrefl _)
    · exact absurd (hk1.trans hk2.symm) hne
  · intro kk ee ee' d0 hre hd0 hl0
    cases hd0
    rw [alookup_ainsert] at hl0
    have hre' : alookup (readM s) kk = some ee := hre
    by_cases hkk : kk = k
    · subst hkk
      rw [readM_eq hri, he] at hre'
      cases hre'
    · rw [if_neg hkk] at hl0
      exact hS kk ee ee' d hre' hd hl0
  · intro ha
    simp
  · intro d0 hd0
    cases hd0
    exact nodupk_ainsert (hndD d hd) k s.nextEntry

theorem dead_fresh_dirty (h : Inv s) {kd : K} (hdead : Dead s kd) (hk : kd ≠ k)
    {d : List (K × Nat)} (hd : s.dirty = some d) {va : Nat} :
    Dead { s with
      entries := Function.update s.entries s.nextEntry ⟨some va, none⟩
      nextEntry := s.nextEntry + 1
      dirty := some (ainsert d k s.nextEntry) } kd := by
  intro ee hm
  rcases memref_fresh_dirty hd hm with hm' | ⟨hk1, _⟩
  · have hlt : ee < s.nextEntry := h.2.1 kd ee hm'
    have : ¬ee = s.nextEntry := Nat.ne_of_lt hlt
    simp only [Function.update_noteq this]
    exact hdead ee hm'
  · exact absurd hk1 hk

theorem rebuild_read_look (hndR : NoDupK (readM s)) {ri : Nat}
    (hri : s.readIdx = some ri) {va : Nat} :
    ∀ x, alookup (readM (rebuildState s k va ri)) x = alookup (s.snaps ri).m x := by
  intro x
  have hstep : readM (rebuildState s k va ri) = copyList [] (s.snaps ri).m := by
    rw [readM_eq (s := rebuildState s k va ri) rfl]
    simp [rebuildState, Function.update_same]
  rw [hstep, alookup_copyList_nil _ (by rwa [readM_eq hri] at hndR)]

theorem rebuild_amd {ri : Nat} {va : Nat} :
    amd (rebuildState s k va ri) = true := by
  rw [amd_eq (s := rebuildState s k va ri) rfl]
  simp [rebuildState, Function.update_same]

theorem rebuild_dirty {ri : Nat} {va : Nat} :
    (rebuildState s k va ri).dirty =
      some (ainsert (expungeScan s.entries [] (s.snaps ri).m).2 k s.nextEntry) := rfl

theorem rebuild_dirty_k {ri : Nat} :
    alookup (ainsert (expungeScan s.entries [] (s.snaps ri).m).2 k s.nextEntry) k
      = some s.nextEntry := by
  rw [alookup_ainsert, if_pos rfl]

theorem rebuild_dirty_ne_some (hE : ExpAll s) (hndR : NoDupK (readM s)) {ri : Nat}
    (hri : s.readIdx = some ri) {x : K} {e0 : Nat} (hxk : ¬x = k)
    (hrm : alookup (s.snaps ri).m x = some e0) :
    alookup (ainsert (expungeScan s.entries [] (s.snaps ri).m).2 k s.nextEntry) x
      = if (s.entries e0).p = none then none else some e0 := by
  have hsc := expungeScan_spec (s.snaps ri).m s.entries [] hE
    (by rwa [readM_eq hri] at hndR) (fun q _ => rfl)
  rw [alookup_ainsert, if_neg hxk]
  exact hsc.2.1 x e0 hrm

theorem rebuild_dirty_ne_none (hE : ExpAll s) (hndR : NoDupK (readM s)) {ri : Nat}
    (hri : s.readIdx = some ri) {x : K} (hxk : ¬x = k)
    (hrm : alookup (s.snaps ri).m x = none) :
    alookup (ainsert (expungeScan s.entries [] (s.snaps ri).m).2 k s.nextEntry) x
      = none := by
  have hsc := expungeScan_spec (s.snaps ri).m s.entries [] hE
    (by rwa [readM_eq hri] at hndR) (fun q _ => rfl)
  rw [alookup_ainsert, if_neg hxk]
  exact hsc.2.2 x hrm

theorem memref_rebuild (h : Inv s) {ri : Nat} (hri : s.readIdx = some ri)
    {va : Nat} {kk : K} {ee : Nat}
    (hm : MemRef (rebuildState s k va ri) kk ee) :
    (alookup (s.snaps ri).m kk = some ee) ∨ (kk = k ∧ ee = s.nextEntry) := by
  obtain ⟨hE, hF, hI, hS, hA, hndR, hndD, hflag⟩ := h
  rcases hm with hm | ⟨d0, hd0, hl0⟩
  · rw [rebuild_read_look hndR hri] at hm
    exact Or.inl hm
  · rw [rebuild_dirty] at hd0
    cases hd0
    by_cases hkk : kk = k
    · subst hkk
      rw [rebuild_dirty_k] at hl0
      exact Or.inr ⟨rfl, (Option.some.inj hl0).symm⟩
    · cases hrm : alookup (s.snaps ri).m kk with
      | none =>
        rw [rebuild_dirty_ne_none hE hndR hri hkk hrm] at hl0
        cases hl0
      | some e0 =>
        rw [rebuild_dirty_ne_some hE hndR hri hkk hrm] at hl0
        by_cases hp : (s.entries e0).p = none
        · rw [if_pos hp] at hl0; cases hl0
        · rw [if_neg hp] at hl0
          exact Or.inl hl0

theorem inv_rebuild (h : Inv s) {ri : Nat} (hri : s.readIdx = some ri)
    (he : alookup (s.snaps ri).m k = none) {va : Nat} :
    Inv (rebuildState s k va ri) := by
  have hmemS : ∀ {kk : K} {ee : Nat}, alookup (s.snaps ri).m kk = some ee →
      MemRef s kk ee := by
    intro kk ee hl
    exact Or.inl (by rw [readM_eq hri]; exact hl)
  obtain ⟨hE, hF, hI, hS, hA, hndR, hndD, hflag⟩ := h
  refine ⟨expAll_update hE rfl, ?_, ?_, ?_, ?_, ?_, ?_, hflag⟩
  · intro kk ee hm
    rcases memref_rebuild ⟨hE, hF, hI, hS, hA, hndR, hndD, hflag⟩ hri hm with hm' | ⟨_, hee⟩
    · exact Nat.lt_succ_of_lt (hF kk ee (hmemS hm'))
    · subst hee; exact Nat.lt_succ_self _
  · intro kk kk' ee ee' hne hm hm'
    rcases memref_rebuild ⟨hE, hF, hI, hS, hA, hndR, hndD, hflag⟩ hri hm with h1 | ⟨hk1, he1⟩ <;>
      rcases memref_rebuild ⟨hE, hF, hI, hS, hA, hndR, hndD, hflag⟩ hri hm' with h2 | ⟨hk2, he2⟩
    · exact hI kk kk' ee ee' hne (hmemS h1) (hmemS h2)
    · subst he2
      intro hEq
      exact absurd (hEq ▸ hF kk ee (hmemS h1)) (lt_irrefl _)
    · subst he1
      intro hEq
      exact absurd (hEq ▸ hF kk' ee' (hmemS h2)) (lt_irrefl _)
    · exact absurd (hk1.trans hk2.symm) hne
  · intro kk ee ee' d0 hre hd0 hl0
    rw [rebuild_read_look hndR hri] at hre
    rw [rebuild_dirty] at hd0
    cases hd0
    by_cases hkk : kk = k
    · subst hkk
      rw [he] at hre
      cases hre
    · rw [rebuild_dirty_ne_some hE hndR hri hkk hre] at hl0
      by_cases hp : (s.entries ee).p = none
      · rw [if_pos hp] at hl0; cases hl0
      · rw [if_neg hp] at hl0
        exact Option.some.inj hl0
  · intro _
    rw [rebuild_dirty]
    simp
  · show NoDupK (readM (rebuildState s k va ri))
    have hstep : readM (rebuildState s k va ri) = copyList [] (s.snaps ri).m := by
      rw [readM_eq (s := rebuildState s k va ri) rfl]
      simp [rebuildState, Function.update_same]
    rw [hstep]
    exact nodupk_copyList _ (by simp [NoDupK])
  · intro d0 hd0
    rw [rebuild_dirty] at hd0
    cases hd0
    exact nodupk_ainsert (nodupk_expungeScan _ _ _ (by simp [NoDupK])) k s.nextEntry

theorem dead_rebuild (h : Inv s) {kd : K} (hdead : Dead s kd) (hk : kd ≠ k)
    {ri : Nat} (hri : s.readIdx = some ri) {va : Nat} :
    Dead (rebuildState s k va ri) kd := by
  intro ee hm
  rcases memref_rebuild h hri hm with hm' | ⟨hk1, _⟩
  · have hmem : MemRef s kd ee := Or.inl (by rw [readM_eq hri]; exact hm')
    have hlt : ee < s.nextEntry := h.2.1 kd ee hmem
    have hne : ¬ee = s.nextEntry := Nat.ne_of_lt hlt
    show ((Function.update s.entries s.nextEntry ⟨some va, none⟩) ee).p = none
    rw [Function.update_noteq hne]
    exact hdead ee hmem
  · exact absurd hk1 hk

theorem inv_putReadHit {ri2 eref va : Nat} (h : Inv s) (hri : s.readIdx = some ri2)
    (he : alookup (s.snaps ri2).m k = some eref) :
    Inv (putReadHit s k eref va) := by
  by_cases hpe : (s.entries eref).p = (s.entries eref).expunged
  · rw [putReadHit_expunged hri hpe]
    refine inv_readwrite h hri ?_ ?_ rfl
    · intro x
      rw [alookup_ainsert]
      by_cases hx : x = k
      · subst hx; rw [if_pos rfl, he]
      · rw [if_neg hx]
    · have hnd : NoDupK (readM s) := h.2.2.2.2.2.1
      rw [readM_eq hri] at hnd
      exact nodupk_ainsert hnd k eref
  · rw [putReadHit_store hpe]
    exact inv_update_entry h (h.1 eref)

theorem dead_putReadHit {ri2 eref va : Nat} (h : Inv s) (hri : s.readIdx = some ri2)
    (he : alookup (s.snaps ri2).m k = some eref) {kd : K} (hk : kd ≠ k)
    (hdead : Dead s kd) :
    Dead (putReadHit s k eref va) kd := by
  have hmk : MemRef s k eref := Or.inl (by rw [readM_eq hri]; exact he)
  have hne : ∀ ee, MemRef s kd ee → ¬ee = eref := by
    intro ee hm
    exact h.2.2.1 kd k ee eref hk hm hmk
  by_cases hpe : (s.entries eref).p = (s.entries eref).expunged
  · rw [putReadHit_expunged hri hpe]
    intro ee hm
    have hm' : MemRef s kd ee := by
      rcases hm with hm | ⟨d0, hd0, hl0⟩
      · have hre : alookup (ainsert (s.snaps ri2).m k eref) kd = some ee := by
          have hrm : readM { s with
              snaps := Function.update s.snaps ri2
                ⟨ainsert (s.snaps ri2).m k eref, (s.snaps ri2).amended⟩
              entries := Function.update s.entries eref ⟨some va, none⟩ }
              = ainsert (s.snaps ri2).m k eref := by
            rw [readM_eq (s := { s with
              snaps := Function.update s.snaps ri2
                ⟨ainsert (s.snaps ri2).m k eref, (s.snaps ri2).amended⟩
              entries := Function.update s.entries eref ⟨some va, none⟩ }) hri]
            simp [Function.update_same]
          rwa [hrm] at hm
        rw [alookup_ainsert, if_neg hk] at hre
        exact Or.inl (by rw [readM_eq hri]; exact hre)
      · exact Or.inr ⟨d0, hd0, hl0⟩
    show ((Function.update s.entries eref ⟨some va, none⟩) ee).p = none
    rw [Function.update_noteq (hne ee hm')]
    exact hdead ee hm'
  · rw [putReadHit_store hpe]
    intro ee hm
    have hm' : MemRef s kd ee := hm
    show ((Function.update s.entries eref ⟨some va, (s.entries eref).expunged⟩) ee).p = none
    rw [Function.update_noteq (hne ee hm')]
    exact hdead ee hm'

theorem inv_putNovel {ri : Nat} (h : Inv s) (hri : s.readIdx = some ri)
    (he : alookup (s.snaps ri).m k = none) {d : List (K × Nat)} (hd : s.dirty = some d)
    {va : Nat} :
    Inv (putNovel s (s.snaps ri).amended d k va) := by
  cases hmiss : (if d.isEmpty then none else alookup d k) with
  | some eref =>
    have hne : ¬d.isEmpty := by
      intro hh
      rw [if_pos hh] at hmiss
      cases hmiss
    have he3 : alookup d k = some eref := by rwa [if_neg hne] at hmiss
    rw [putNovel_dirty_hit hne he3]
    exact inv_update_entry h (h.1 eref)
  | none =>
    cases ha : (s.snaps ri).amended with
    | true =>
      rw [putNovel_fresh hmiss]
      exact inv_fresh_dirty h hri he hd
    | false =>
      rw [putNovel_rebuild h.1 h.2.2.2.2.2.1 hd hri hmiss]
      exact inv_rebuild h hri he

theorem dead_putNovel {ri : Nat} (h : Inv s) (hri : s.readIdx = some ri)
    (he : alookup (s.snaps ri).m k = none) {d : List (K × Nat)} (hd : s.dirty = some d)
    {va : Nat} {kd : K} (hk : kd ≠ k) (hdead : Dead s kd) :
    Dead (putNovel s (s.snaps ri).amended d k va) kd := by
  cases hmiss : (if d.isEmpty then none else alookup d k) with
  | some eref =>
    have hne : ¬d.isEmpty := by
      intro hh
      rw [if_pos hh] at hmiss
      cases hmiss
    have he3 : alookup d k = some eref := by rwa [if_neg hne] at hmiss
    rw [putNovel_dirty_hit hne he3]
    have hmk : MemRef s k eref := Or.inr ⟨d, hd, he3⟩
    intro ee hm
    have hm' : MemRef s kd ee := hm
    have hnee : ¬ee = eref := h.2.2.1 kd k ee eref hk hm' hmk
    show ((Function.update s.entries eref ⟨some va, (s.entries eref).expunged⟩) ee).p = none
    rw [Function.update_noteq hnee]
    exact hdead ee hm'
  | none =>
    cases ha : (s.snaps ri).amended with
    | true =>
      rw [putNovel_fresh hmiss]
      exact dead_fresh_dirty h hdead hk hd
    | false =>
      rw [putNovel_rebuild h.1 h.2.2.2.2.2.1 hd hri hmiss]
      exact dead_rebuild h hdead hk hri

theorem inv_putLoop (fuel : Nat) :
    ∀ (s : MapState K V) (k : K) (va : Nat), Inv s → Inv (putLoop fuel s s.readIdx k va) := by
  induction fuel with
  | zero =>
    intro s k va h
    simpa [putLoop] using h
  | succ fuel ih =>
    intro s k va h
    cases hri : s.readIdx with
    | none =>
      simp only [putLoop]
      exact ih _ _ _ (inv_initTable h)
    | some ri =>
      simp only [putLoop]
      cases he : alookup (s.snaps ri).m k with
      | some eref =>
        simp only [he]
        exact inv_putReadHit h hri he
      | none =>
        simp only [he]
        cases hd : s.dirty with
        | none =>
          simp only [hd]
          exact ih _ _ _ (inv_set_dirty_nil h)
        | some d =>
          simp only [hd]
          exact inv_putNovel h hri he hd

theorem dead_putLoop (fuel : Nat) :
    ∀ (s : MapState K V) (k : K) (va : Nat) (kd : K), Inv s → Dead s kd → kd ≠ k →
      Dead (putLoop fuel s s.readIdx k va) kd := by
  induction fuel with
  | zero =>
    intro s k va kd h hdead hk
    simpa [putLoop] using hdead
  | succ fuel ih =>
    intro s k va kd h hdead hk
    cases hri : s.readIdx with
    | none =>
      simp only [putLoop]
      exact ih _ _ _ _ (inv_initTable h) (dead_initTable hdead) hk
    | some ri =>
      simp only [putLoop]
      cases he : alookup (s.snaps ri).m k with
      | some eref =>
        simp only [he]
        exact dead_putReadHit h hri he hk hdead
      | none =>
        simp only [he]
        cases hd : s.dirty with
        | none =>
          simp only [hd]
          exact ih _ _ _ _ (inv_set_dirty_nil h) (dead_set_dirty_nil hdead) hk
        | some d =>
          simp only [hd]
          exact dead_putNovel h hri he hd hk hdead

theorem inv_putOp (h : Inv s) (v : V) : Inv (putOp s k v) := by
  unfold putOp putFrom
  exact inv_putLoop 3 _ k s.nextVal h

theorem dead_putOp (h : Inv s) (v : V) {kd : K} (hdead : Dead s kd) (hk : kd ≠ k) :
    Dead (putOp s k v) kd := by
  unfold putOp putFrom
  exact dead_putLoop 3 _ k s.nextVal kd h hdead hk

theorem dead_of_maps {t : MapState K V} (hr : alookup (readM t) k = none)
    (hd : ∀ d0, t.dirty = some d0 → alookup d0 k = none) : Dead t k := by
  intro ee hm
  rcases hm with hm | ⟨d0, hd0, hl0⟩
  · rw [hr] at hm; cases hm
  · rw [hd d0 hd0] at hl0; cases hl0

theorem removeOp_some_dead (h : Inv s) {v : V} (hr : (removeOp s k).2 = some v) :
    Dead (removeOp s k).1 k := by
  cases hri : s.readIdx with
  | none =>
    rw [removeOp_none_read hri] at hr
    cases hr
  | some ri =>
    cases he : alookup (s.snaps ri).m k with
    | some eref =>
      rw [removeOp_read_hit hri he]
      intro ee hm
      have hm' : MemRef s k ee := hm
      have hee : ee = eref := by
        rcases hm' with hmr | ⟨d0, hd0, hl0⟩
        · rw [readM_eq hri, he] at hmr
          exact (Option.some.inj hmr).symm
        · exact (h.2.2.2.1 k eref ee d0 (by rw [readM_eq hri]; exact he) hd0 hl0).symm
      subst hee
      show ((Function.update s.entries ee (entryRemove (s.entries ee)).1) ee).p = none
      rw [Function.update_same]
      exact entryRemove_p _
    | none =>
      cases ha : (s.snaps ri).amended with
      | false =>
        rw [removeOp_read_miss_quiet hri he ha] at hr
        cases hr
      | true =>
        cases hd : s.dirty with
        | none =>
          rw [removeOp_amended_nodirty hri he ha hd] at hr
          cases hr
        | some d =>
          cases he3 : alookup d k with
          | none =>
            rw [removeOp_dirty_miss hri he ha hd he3] at hr
            cases hr
          | some eref =>
            rw [removeOp_dirty_hit hri he ha hd he3]
            have hndd : NoDupK (aerase d k) := nodupk_aerase (h.2.2.2.2.2.2.1 d hd) k
            apply dead_of_maps
            · show alookup (readM (missLocked { s with dirty := some (aerase d k) })) k
                = none
              by_cases hlt : s.misses < (aerase d k).length
              · rw [missLocked_keep (s := { s with dirty := some (aerase d k) }) rfl hlt]
                show alookup (readM s) k = none
                rw [readM_eq hri]
                exact he
              · rw [missLocked_promote (s := { s with dirty := some (aerase d k) }) rfl hlt]
                simp only [readM, Function.update_same]
                rw [alookup_copyList_nil _ hndd, alookup_aerase, if_pos rfl]
            · intro d0 hd0
              by_cases hlt : s.misses < (aerase d k).length
              · rw [missLocked_keep (s := { s with dirty := some (aerase d k) }) rfl hlt]
                  at hd0
                have : some (aerase d k) = some d0 := hd0
                cases this
                rw [alookup_aerase, if_pos rfl]
              · rw [missLocked_promote (s := { s with dirty := some (aerase d k) }) rfl hlt]
                  at hd0
                exact absurd hd0 (by simp)

theorem inv_step (h : Inv s) (op : Op K V) : Inv (step s op) := by
  cases op with
  | ins k v => exact inv_putOp h v
  | del k => exact inv_removeOp h
  | qry k => exact inv_getOp h
  | clr => exact inv_clearOp h

theorem dead_step {kd : K} (h : Inv s) (hdead : Dead s kd) {op : Op K V}
    (hop : insOn op kd = false) : Dead (step s op) kd := by
  cases op with
  | ins k v =>
    have hk : kd ≠ k := by
      simp only [insOn, decide_eq_false_iff_not] at hop
      exact fun hh => hop hh.symm
    exact dead_putOp h v hdead hk
  | del k => exact dead_removeOp h hdead
  | qry k => exact dead_getOp h hdead
  | clr => exact dead_clearOp

theorem inv_initState [Inhabited V] : Inv (initState : MapState K V) := by
  refine ⟨fun r => rfl, ?_, ?_, ?_, ?_, ?_, ?_, ?_⟩
  · intro kk ee hm
    rcases hm with hm | ⟨d0, hd0, _⟩
    · simp [readM, initState, alookup] at hm
    · simp [initState] at hd0
  · intro kk kk' ee ee' _ hm _
    rcases hm with hm | ⟨d0, hd0, _⟩
    · simp [readM, initState, alookup] at hm
    · simp [initState] at hd0
  · intro kk ee ee' d0 hre _
    simp [readM, initState, alookup] at hre
  · intro ha
    simp [amd, initState] at ha
  · simp [readM, initState, NoDupK]
  · intro d0 hd0
    simp [initState] at hd0
  · simp [initState]

theorem inv_runFrom (ops : List (Op K V)) :
    ∀ s : MapState K V, Inv s → Inv (runFrom s ops) := by
  induction ops with
  | nil => intro s h; exact h
  | cons op t ih =>
    intro s h
    show Inv (runFrom (step s op) t)
    exact ih _ (inv_step h op)

theorem dead_runFrom (ops : List (Op K V)) :
    ∀ (s : MapState K V) (kd : K), Inv s → Dead s kd →
      (∀ op ∈ ops, insOn op kd = false) → Dead (runFrom s ops) kd := by
  induction ops with
  | nil => intro s kd _ hdead _; exact hdead
  | cons op t ih =>
    intro s kd h hdead hops
    show Dead (runFrom (step s op) t) kd
    exact ih _ _ (inv_step h op) (dead_step h hdead (hops op (by simp)))
      (fun o ho => hops o (by simp [ho]))

theorem inv_run [Inhabited V] (ops : List (Op K V)) : Inv (run ops) :=
  inv_runFrom ops _ inv_initState

theorem clearedShape_clearOp : ClearedShape (clearOp s) := by
  refine ⟨s.nextSnap, rfl, ?_, ?_⟩ <;> simp [clearOp, Function.update_same]

theorem cleared_get (h : ClearedShape s) : getOp s k = (s, none) := by
  obtain ⟨ri, hri, hm, ha⟩ := h
  simp [getOp, hri, hm, ha, entryLoadV, alookup]

theorem cleared_remove (h : ClearedShape s) : removeOp s k = (s, none) := by
  obtain ⟨ri, hri, hm, ha⟩ := h
  simp [removeOp, removeLoop, hri, hm, ha, alookup]

theorem cleared_runFrom (mid : List (Op K V)) :
    ∀ s : MapState K V, ClearedShape s → (∀ op ∈ mid, isIns op = false) →
      ClearedShape (runFrom s mid) := by
  induction mid with
  | nil => intro s h _; exact h
  | cons op t ih =>
    intro s h hops
    show ClearedShape (runFrom (step s op) t)
    have hstep : ClearedShape (step s op) := by
      cases op with
      | ins k v => simp [isIns] at hops
      | del k =>
        show ClearedShape (removeOp s k).1
        rw [cleared_remove h]
        exact h
      | qry k =>
        show ClearedShape (getOp s k).1
        rw [cleared_get h]
        exact h
      | clr => exact clearedShape_clearOp
    exact ih _ hstep (fun o ho => hops o (by simp [ho]))

end StateLemmas

/-- Claim C1 (single-threaded read-your-writes) fails on the code.  In the
trace below, `insert(1,42)` hits `put`'s slow path with key 1 present in
the snapshot and its value pointer null, `unexpunge_locked` succeeds, and
the entry is re-inserted into the read snapshot instead of the dirty
overlay (map.rs lines 415-420, contradicting the adjacent comment); the
overlay still lacks key 1, so the promotion triggered by two lookups of the
unrelated key 3 publishes a snapshot without key 1.  Right after the insert
`get(1)` still returns `Some 42` (first conjunct), but after the two
`get(3)` misses it returns `None` (second conjunct), violating the claim. -/
theorem c1_read_your_writes_failing :
    (getOp (run ([Op.ins 1 10, Op.qry 0, Op.qry 0, Op.del 1, Op.ins 2 20,
      Op.ins 1 42] : List (Op Nat Nat))) 1).2 = some 42 ∧
    (getOp (run ([Op.ins 1 10, Op.qry 0, Op.qry 0, Op.del 1, Op.ins 2 20,
      Op.ins 1 42, Op.qry 3, Op.qry 3] : List (Op Nat Nat))) 1).2 = none := by
  constructor
  · decide
  · decide

/-- Claim C2 fails on the code: in the state reached by the prefix trace,
key 1 is in the read snapshot (entry 0) with a null value pointer equal to
the null expunged marker (the expunged condition of invariant I2), so
`insert(1,42)` takes the slow path, `unexpunge_locked` returns `true` — but
`put` inserts the entry reference into the *read snapshot* map, not the
dirty overlay: when the insert returns, the overlay is still `[(2,1)]` and
key 1 is absent from it, contradicting the claim and the code's own comment
("there is a non-nil dirty map and this entry is not in it"). -/
theorem c2_unexpunge_inserts_into_read_not_dirty :
    ((run ([Op.ins 1 10, Op.qry 0, Op.qry 0, Op.del 1, Op.ins 2 20]
        : List (Op Nat Nat))).readIdx = some 3 ∧
      alookup ((run ([Op.ins 1 10, Op.qry 0, Op.qry 0, Op.del 1, Op.ins 2 20]
        : List (Op Nat Nat))).snaps 3).m 1 = some 0 ∧
      ((run ([Op.ins 1 10, Op.qry 0, Op.qry 0, Op.del 1, Op.ins 2 20]
        : List (Op Nat Nat))).entries 0).p = none ∧
      ((run ([Op.ins 1 10, Op.qry 0, Op.qry 0, Op.del 1, Op.ins 2 20]
        : List (Op Nat Nat))).entries 0).expunged = none) ∧
    (run ([Op.ins 1 10, Op.qry 0, Op.qry 0, Op.del 1, Op.ins 2 20, Op.ins 1 42]
        : List (Op Nat Nat))).dirty = some [(2, 1)] ∧
    alookup [((2 : Nat), (1 : Nat))] 1 = none := by
  refine ⟨⟨?_, ?_, ?_, ?_⟩, ?_, ?_⟩ <;> decide

/-- Claim C3 (promotion preserves values) fails on the code.  In the state
reached by the trace, key 1 has value 42 (`get(1) = Some 42`), the overlay
is `[(2,1)]` (it lacks key 1: the expunge-recovery path of `put` never
re-added it) and the miss counter is 1, so the next slow-path miss
promotes.  The subsequent `get(3)` performs that promotion (the dirty
pointer becomes null and the snapshot `[(2,1)]` with `amended = false` is
published at index 4), after which `get(1)` returns `None` instead of
`Some 42`: the promotion lost a live key. -/
theorem c3_promotion_loses_live_key :
    ((getOp (run ([Op.ins 1 10, Op.qry 0, Op.qry 0, Op.del 1, Op.ins 2 20,
        Op.ins 1 42, Op.qry 3] : List (Op Nat Nat))) 1).2 = some 42 ∧
      (run ([Op.ins 1 10, Op.qry 0, Op.qry 0, Op.del 1, Op.ins 2 20,
        Op.ins 1 42, Op.qry 3] : List (Op Nat Nat))).dirty = some [(2, 1)] ∧
      (run ([Op.ins 1 10, Op.qry 0, Op.qry 0, Op.del 1, Op.ins 2 20,
        Op.ins 1 42, Op.qry 3] : List (Op Nat Nat))).misses = 1) ∧
    ((run ([Op.ins 1 10, Op.qry 0, Op.qry 0, Op.del 1, Op.ins 2 20,
        Op.ins 1 42, Op.qry 3, Op.qry 3] : List (Op Nat Nat))).dirty = none ∧
      (run ([Op.ins 1 10, Op.qry 0, Op.qry 0, Op.del 1, Op.ins 2 20,
        Op.ins 1 42, Op.qry 3, Op.qry 3] : List (Op Nat Nat))).readIdx = some 4 ∧
      ((run ([Op.ins 1 10, Op.qry 0, Op.qry 0, Op.del 1, Op.ins 2 20,
        Op.ins 1 42, Op.qry 3, Op.qry 3] : List (Op Nat Nat))).snaps 4).m = [(2, 1)] ∧
      ((run ([Op.ins 1 10, Op.qry 0, Op.qry 0, Op.del 1, Op.ins 2 20,
        Op.ins 1 42, Op.qry 3, Op.qry 3] : List (Op Nat Nat))).snaps 4).amended = false) ∧
    (getOp (run ([Op.ins 1 10, Op.qry 0, Op.qry 0, Op.del 1, Op.ins 2 20,
        Op.ins 1 42, Op.qry 3, Op.qry 3] : List (Op Nat Nat))) 1).2 = none := by
  refine ⟨⟨?_, ?_, ?_⟩, ⟨?_, ?_, ?_, ?_⟩, ?_⟩ <;> decide

/-- Counterexample to claim C4: after `insert(1,5); remove(1)` the entry of
key 1 is Empty (null value pointer) and was never expunged — no
`try_unexpunge_locked` ran in this trace, and its `expunged` marker is the
null it was created with — yet `try_store` returns `false` on it, because
the loaded value pointer (null) equals the loaded `expunged` pointer
(null).  The claim says `try_store` returns `false` only for expunged
entries and succeeds on Empty-but-never-expunged ones. -/
theorem c4_counterexample :
    (run ([Op.ins 1 5, Op.del 1] : List (Op Nat Nat))).entries 0
      = ⟨none, none⟩ ∧
    (tryStore ((run ([Op.ins 1 5, Op.del 1] : List (Op Nat Nat))).entries 0) 7).2
      = false := by
  constructor <;> decide

/-- Claim C4 as amended: `try_store` returns `false` exactly when the value
pointer equals the `expunged` field's content; since the `expunged` field
is always null (claim C10), this means `try_store` fails exactly when the
value pointer is null — the Empty and Expunged states coincide — and in
every other case it installs the new value and returns `true`. -/
theorem c4_try_store_amended (e : EntrySt) (va : Nat) (hexp : e.expunged = none) :
    ((tryStore e va).2 = false ↔ e.p = none) ∧
    ((tryStore e va).2 = true → (tryStore e va).1.p = some va) := by
  by_cases hp : e.p = e.expunged
  · rw [hexp] at hp
    simp [tryStore, hp, hexp]
  · rw [hexp] at hp
    simp [tryStore, hexp, hp]

/-- Witness for the amended C4 theorem at a live entry. -/
theorem c4_witness :
    ((tryStore (⟨some 3, none⟩ : EntrySt) 7).2 = false
        ↔ (⟨some 3, none⟩ : EntrySt).p = none) ∧
    ((tryStore (⟨some 3, none⟩ : EntrySt) 7).2 = true
        → (tryStore (⟨some 3, none⟩ : EntrySt) 7).1.p = some 7) :=
  c4_try_store_amended ⟨some 3, none⟩ 7 rfl

/-- Counterexample to claim C5: after `insert(1,10)` the overlay is
`[(1,0)]` (length 1) and the miss counter is 0; a call to `miss_locked`
increments the counter to 1, which reaches the overlay length, yet no
promotion happens — the overlay and the read pointer are unchanged —
because the source compares the `fetch_add` return value (the counter
*before* the increment) with the length. -/
theorem c5_counterexample :
    (run ([Op.ins 1 10] : List (Op Nat Nat))).misses = 0 ∧
    (run ([Op.ins 1 10] : List (Op Nat Nat))).dirty = some [(1, 0)] ∧
    (missLocked (run ([Op.ins 1 10] : List (Op Nat Nat)))).misses = 1 ∧
    (missLocked (run ([Op.ins 1 10] : List (Op Nat Nat)))).dirty = some [(1, 0)] ∧
    (missLocked (run ([Op.ins 1 10] : List (Op Nat Nat)))).readIdx
      = (run ([Op.ins 1 10] : List (Op Nat Nat))).readIdx := by
  refine ⟨?_, ?_, ?_, ?_, ?_⟩ <;> decide

/-- Claim C5 as amended: every call to `miss_locked` increments the miss
counter; the overlay is promoted exactly when the counter *before* the
increment has reached the current overlay length (equivalently, when the
incremented counter strictly exceeds it).  On promotion the published
snapshot's contents equal the overlay's by reference-copy of the entry
pointers, its `amended` flag is `false`, the dirty pointer is cleared, and
the miss counter is reset to zero. -/
theorem c5_miss_locked_amended {K V : Type} [DecidableEq K] (s : MapState K V) :
    (s.dirty = none → missLocked s = { s with misses := s.misses + 1 }) ∧
    (∀ d, s.dirty = some d → NoDupK d →
      (s.misses < d.length → missLocked s = { s with misses := s.misses + 1 }) ∧
      (d.length ≤ s.misses →
        (missLocked s).readIdx = some s.nextSnap ∧
        (∀ x, alookup ((missLocked s).snaps s.nextSnap).m x = alookup d x) ∧
        ((missLocked s).snaps s.nextSnap).amended = false ∧
        (missLocked s).dirty = none ∧
        (missLocked s).misses = 0)) := by
  refine ⟨fun hd => missLocked_none_dirty hd, ?_⟩
  intro d hd hnd
  refine ⟨fun hlt => missLocked_keep hd hlt, ?_⟩
  intro hge
  have hnlt : ¬s.misses < d.length := not_lt.mpr hge
  rw [missLocked_promote hd hnlt]
  refine ⟨rfl, ?_, ?_, rfl, rfl⟩
  · intro x
    simp only [Function.update_same]
    exact alookup_copyList_nil d hnd x
  · simp [Function.update_same]

/-- Witness for the amended C5 theorem: after `insert(1,10); get(0)` the
miss counter is 1 and the overlay `[(1,0)]` has length 1, so the next
`miss_locked` promotes: the new snapshot at index 2 maps key 1 as the
overlay did, is not amended, the dirty pointer is cleared and the counter
reset. -/
theorem c5_witness :
    (missLocked (run ([Op.ins 1 10, Op.qry 0] : List (Op Nat Nat)))).readIdx
      = some 2 ∧
    alookup ((missLocked (run ([Op.ins 1 10, Op.qry 0]
      : List (Op Nat Nat)))).snaps 2).m 1 = alookup [(1, 0)] 1 ∧
    ((missLocked (run ([Op.ins 1 10, Op.qry 0]
      : List (Op Nat Nat)))).snaps 2).amended = false ∧
    (missLocked (run ([Op.ins 1 10, Op.qry 0] : List (Op Nat Nat)))).dirty = none ∧
    (missLocked (run ([Op.ins 1 10, Op.qry 0] : List (Op Nat Nat)))).misses = 0 := by
  have h := ((c5_miss_locked_amended
    (run ([Op.ins 1 10, Op.qry 0] : List (Op Nat Nat)))).2 [(1, 0)]
    (by decide) (by decide)).2 (by decide)
  exact ⟨h.1, h.2.1 1, h.2.2.1, h.2.2.2.1, h.2.2.2.2⟩

/-- Counterexample to claim C6 (published snapshots are frozen).  `put`
loads its `table` pointer before acquiring the mutex (map.rs line 391), so
under concurrency the read view it matches on can be a snapshot that has
since been replaced.  In the state below (reached sequentially), snapshot 3
maps key 1 while the currently published snapshot 4 (produced by a
promotion) maps only key 2.  Running `put(1, 99)` with the stale table 3 —
exactly what a thread that loaded `table` before the promotion does —
executes the expunge-recovery path and inserts `(1, entry 0)` into the
**currently published** snapshot 4 in place: its mapping grows from
`[(2,1)]` to `[(2,1),(1,0)]` while the read pointer still references index
4 and no new snapshot object is allocated (`nextSnap` is unchanged). -/
theorem c6_counterexample :
    ((run ([Op.ins 1 10, Op.qry 0, Op.qry 0, Op.del 1, Op.ins 2 20, Op.qry 3,
        Op.qry 3] : List (Op Nat Nat))).snaps 4).m = [(2, 1)] ∧
    (run ([Op.ins 1 10, Op.qry 0, Op.qry 0, Op.del 1, Op.ins 2 20, Op.qry 3,
        Op.qry 3] : List (Op Nat Nat))).readIdx = some 4 ∧
    (putFrom (run ([Op.ins 1 10, Op.qry 0, Op.qry 0, Op.del 1, Op.ins 2 20,
        Op.qry 3, Op.qry 3] : List (Op Nat Nat))) 1 99 (some 3)).readIdx
      = some 4 ∧
    (putFrom (run ([Op.ins 1 10, Op.qry 0, Op.qry 0, Op.del 1, Op.ins 2 20,
        Op.qry 3, Op.qry 3] : List (Op Nat Nat))) 1 99 (some 3)).nextSnap
      = (run ([Op.ins 1 10, Op.qry 0, Op.qry 0, Op.del 1, Op.ins 2 20, Op.qry 3,
        Op.qry 3] : List (Op Nat Nat))).nextSnap ∧
    ((putFrom (run ([Op.ins 1 10, Op.qry 0, Op.qry 0, Op.del 1, Op.ins 2 20,
        Op.qry 3, Op.qry 3] : List (Op Nat Nat))) 1 99 (some 3)).snaps 4).m
      = [(2, 1), (1, 0)] := by
  refine ⟨?_, ?_, ?_, ?_, ?_⟩ <;> decide

/-- Claim C6 as amended: the read view is not frozen.  Whenever `put`'s
loop runs with a (possibly stale) read view containing its key and the
entry's value pointer equals its `expunged` marker, it writes the
**currently published** snapshot in place: the snapshot object the read
pointer references gets the key→entry binding inserted into its mapping,
the read pointer itself is unchanged, no snapshot is allocated, and every
other snapshot object is untouched. -/
theorem c6_put_writes_snapshot_in_place {K V : Type} [DecidableEq K]
    (s : MapState K V) (k : K) (v : V) (ri ri2 eref : Nat)
    (hri2 : s.readIdx = some ri2)
    (he : alookup (s.snaps ri).m k = some eref)
    (hpe : (s.entries eref).p = (s.entries eref).expunged) :
    (putFrom s k v (some ri)).readIdx = some ri2 ∧
    (putFrom s k v (some ri)).nextSnap = s.nextSnap ∧
    ((putFrom s k v (some ri)).snaps ri2).m = ainsert (s.snaps ri2).m k eref ∧
    (∀ j, ¬j = ri2 → (putFrom s k v (some ri)).snaps j = s.snaps j) := by
  unfold putFrom
  simp only [putLoop, he]
  rw [putReadHit_expunged (s := { s with
      vals := Function.update s.vals s.nextVal v
      nextVal := s.nextVal + 1 }) hri2 hpe]
  refine ⟨hri2, rfl, ?_, ?_⟩
  · simp [Function.update_same]
  · intro j hj
    simp [Function.update_noteq hj]

/-- Witness for the amended C6 theorem at the counterexample state: the
stale read view is snapshot 3, the published one is snapshot 4, and the
untouched-other-snapshots conjunct is instantiated at index 3. -/
theorem c6_witness :
    (putFrom (run ([Op.ins 1 10, Op.qry 0, Op.qry 0, Op.del 1, Op.ins 2 20,
        Op.qry 3, Op.qry 3] : List (Op Nat Nat))) 1 99 (some 3)).readIdx
      = some 4 ∧
    ((putFrom (run ([Op.ins 1 10, Op.qry 0, Op.qry 0, Op.del 1, Op.ins 2 20,
        Op.qry 3, Op.qry 3] : List (Op Nat Nat))) 1 99 (some 3)).snaps 4).m
      = ainsert ((run ([Op.ins 1 10, Op.qry 0, Op.qry 0, Op.del 1, Op.ins 2 20,
        Op.qry 3, Op.qry 3] : List (Op Nat Nat))).snaps 4).m 1 0 ∧
    (putFrom (run ([Op.ins 1 10, Op.qry 0, Op.qry 0, Op.del 1, Op.ins 2 20,
        Op.qry 3, Op.qry 3] : List (Op Nat Nat))) 1 99 (some 3)).snaps 3
      = (run ([Op.ins 1 10, Op.qry 0, Op.qry 0, Op.del 1, Op.ins 2 20,
        Op.qry 3, Op.qry 3] : List (Op Nat Nat))).snaps 3 := by
  have h := c6_put_writes_snapshot_in_place
    (run ([Op.ins 1 10, Op.qry 0, Op.qry 0, Op.del 1, Op.ins 2 20, Op.qry 3,
      Op.qry 3] : List (Op Nat Nat))) 1 99 3 4 0
    (by decide) (by decide) (by decide)
  exact ⟨h.1, h.2.2.1, h.2.2.2 3 (by decide)⟩

/-- Counterexample to claim C7: `Map::clear` never calls `check_guard`
(map.rs lines 596-606), so passing a guard obtained from a *different*
map's collector (identity 1, against this map's collector 0) is accepted
and `clear` proceeds normally instead of panicking as the claim requires. -/
theorem c7_counterexample :
    clearChecked 0 (initState : MapState Nat Nat) (some 1)
      = some (clearOp initState) := rfl

/-- Claim C7 as amended: `get`, `insert` and `remove` do check the guard —
they proceed exactly when the guard is unprotected or carries this map's
collector, and panic on a guard from a different collector — but `clear`
performs no guard check and accepts every guard. -/
theorem c7_guard_checks_amended {K V : Type} [DecidableEq K] (cid : Nat)
    (s : MapState K V) (k : K) (v : V) (g : Option Nat) :
    ((getChecked cid s k g).isSome = checkGuard cid g) ∧
    ((insertChecked cid s k v g).isSome = checkGuard cid g) ∧
    ((removeChecked cid s k g).isSome = checkGuard cid g) ∧
    ((clearChecked cid s g).isSome = true) ∧
    (checkGuard cid none = true) ∧
    (checkGuard cid (some cid) = true) ∧
    (∀ c, ¬c = cid → checkGuard cid (some c) = false) := by
  refine ⟨?_, ?_, ?_, rfl, rfl, by simp [checkGuard], ?_⟩
  · by_cases hg : checkGuard cid g = true <;> simp [getChecked, hg]
  · by_cases hg : checkGuard cid g = true <;> simp [insertChecked, hg]
  · by_cases hg : checkGuard cid g = true <;> simp [removeChecked, hg]
  · intro c hc
    simp [checkGuard, hc]

/-- Witness for the amended C7 theorem: a map with collector identity 0 and
a guard from collector 1; `get`, `insert` and `remove` panic, `clear`
proceeds. -/
theorem c7_witness :
    ((getChecked 0 (initState : MapState Nat Nat) 5 (some 1)).isSome
      = checkGuard 0 (some 1)) ∧
    ((insertChecked 0 (initState : MapState Nat Nat) 5 6 (some 1)).isSome
      = checkGuard 0 (some 1)) ∧
    ((removeChecked 0 (initState : MapState Nat Nat) 5 (some 1)).isSome
      = checkGuard 0 (some 1)) ∧
    ((clearChecked 0 (initState : MapState Nat Nat) (some 1)).isSome = true) ∧
    (checkGuard 0 (some 1) = false) := by
  have h := c7_guard_checks_amended 0 (initState : MapState Nat Nat) 5 6 (some 1)
  exact ⟨h.1, h.2.1, h.2.2.1, h.2.2.2.1, h.2.2.2.2.2.2 1 (by decide)⟩

/-- Claim C8 (single-threaded remove semantics), confirmed.  If `remove k`
returns `Some v` from any reachable state and the thread then performs any
operations that do not insert `k` (lookups, removals of any key, inserts
of other keys, clears), a `get k` returns `None` and a second `remove k`
returns `None`.  This covers both remove paths — the key found in the read
snapshot, and the key found only in the dirty overlay — since `pre` ranges
over all traces. -/
theorem c8_remove_semantics {K V : Type} [DecidableEq K] [Inhabited V]
    (pre mid : List (Op K V)) (k : K) (v : V)
    (hrem : (removeOp (run pre) k).2 = some v)
    (hmid : ∀ op ∈ mid, insOn op k = false) :
    (getOp (runFrom (removeOp (run pre) k).1 mid) k).2 = none ∧
    (removeOp (runFrom (removeOp (run pre) k).1 mid) k).2 = none := by
  have hinv : Inv (run pre) := inv_run pre
  have hdead : Dead (removeOp (run pre) k).1 k := removeOp_some_dead hinv hrem
  have hinv1 : Inv (removeOp (run pre) k).1 := inv_removeOp hinv
  have hinv2 : Inv (runFrom (removeOp (run pre) k).1 mid) := inv_runFrom mid _ hinv1
  have hdead2 : Dead (runFrom (removeOp (run pre) k).1 mid) k :=
    dead_runFrom mid _ k hinv1 hdead hmid
  exact ⟨dead_get_none hinv2 hdead2, dead_remove_none hinv2 hdead2⟩

/-- Witness for C8: `insert(1,5)`, then `remove 1` returns `Some 5`; after
a lookup of key 2, both `get 1` and a second `remove 1` return `None`. -/
theorem c8_witness :
    (getOp (runFrom (removeOp (run ([Op.ins 1 5] : List (Op Nat Nat))) 1).1
      [Op.qry 2]) 1).2 = none ∧
    (removeOp (runFrom (removeOp (run ([Op.ins 1 5] : List (Op Nat Nat))) 1).1
      [Op.qry 2]) 1).2 = none :=
  c8_remove_semantics [Op.ins 1 5] [Op.qry 2] 1 5 (by decide) (by decide)

/-- Claim C9 (`clear` semantics), confirmed.  `clear` publishes a fresh
empty read snapshot (at the next snapshot index, empty and not amended),
a fresh empty dirty overlay, and resets the miss counter to zero; and for
every key `k`, a `get k` performed after the `clear` — with any
non-inserting operations in between — returns `None`. -/
theorem c9_clear_semantics {K V : Type} [DecidableEq K] (s : MapState K V) (k : K)
    (mid : List (Op K V)) (hmid : ∀ op ∈ mid, isIns op = false) :
    (clearOp s).misses = 0 ∧
    (clearOp s).dirty = some [] ∧
    (clearOp s).readIdx = some s.nextSnap ∧
    ((clearOp s).snaps s.nextSnap).m = [] ∧
    ((clearOp s).snaps s.nextSnap).amended = false ∧
    (getOp (runFrom (clearOp s) mid) k).2 = none := by
  refine ⟨rfl, rfl, rfl, ?_, ?_, ?_⟩
  · simp [clearOp, Function.update_same]
  · simp [clearOp, Function.update_same]
  · have hcl := cleared_runFrom mid (clearOp s) (clearedShape_clearOp (s := s)) hmid
    rw [cleared_get hcl]

/-- Witness for C9 after a concrete insert, with a removal of another key
between the `clear` and the `get`. -/
theorem c9_witness :
    (clearOp (run ([Op.ins 1 5] : List (Op Nat Nat)))).misses = 0 ∧
    (clearOp (run ([Op.ins 1 5] : List (Op Nat Nat)))).dirty = some [] ∧
    (clearOp (run ([Op.ins 1 5] : List (Op Nat Nat)))).readIdx
      = some (run ([Op.ins 1 5] : List (Op Nat Nat))).nextSnap ∧
    ((clearOp (run ([Op.ins 1 5] : List (Op Nat Nat)))).snaps
      (run ([Op.ins 1 5] : List (Op Nat Nat))).nextSnap).m = [] ∧
    ((clearOp (run ([Op.ins 1 5] : List (Op Nat Nat)))).snaps
      (run ([Op.ins 1 5] : List (Op Nat Nat))).nextSnap).amended = false ∧
    (getOp (runFrom (clearOp (run ([Op.ins 1 5] : List (Op Nat Nat))))
      [Op.del 2]) 1).2 = none :=
  c9_clear_semantics (run ([Op.ins 1 5] : List (Op Nat Nat))) 1 [Op.del 2]
    (by decide)

/-- Claim C10 (implicit invariant), confirmed.  In every state reachable by
a sequence of operations, every entry cell's `expunged` marker is null; a
consequence is that the Expunged condition of invariant I2 (value pointer
equal to the `expunged` field) coincides with the Empty condition (null
value pointer), and `try_unexpunge_locked`'s CAS of a null value pointer to
the `expunged` marker leaves the value pointer null (and reports success). -/
theorem c10_expunged_always_null {K V : Type} [DecidableEq K] [Inhabited V]
    (ops : List (Op K V)) (r : Nat) :
    ((run ops).entries r).expunged = none ∧
    (((run ops).entries r).p = ((run ops).entries r).expunged ↔
      ((run ops).entries r).p = none) ∧
    (((run ops).entries r).p = none →
      (tryUnexpunge ((run ops).entries r)).1.p = none ∧
      (tryUnexpunge ((run ops).entries r)).2 = true) := by
  have hE : ((run ops).entries r).expunged = none := (inv_run ops).1 r
  refine ⟨hE, by rw [hE], ?_⟩
  intro hp
  have hent : (run ops).entries r = ⟨none, none⟩ := entry_ext hp hE
  rw [hent]
  exact ⟨rfl, rfl⟩

/-- Witness for C10 at the entry left by `insert(1,2); remove(1)`. -/
theorem c10_witness :
    ((run ([Op.ins 1 2, Op.del 1] : List (Op Nat Nat))).entries 0).expunged
      = none ∧
    (((run ([Op.ins 1 2, Op.del 1] : List (Op Nat Nat))).entries 0).p
      = ((run ([Op.ins 1 2, Op.del 1] : List (Op Nat Nat))).entries 0).expunged
      ↔ ((run ([Op.ins 1 2, Op.del 1] : List (Op Nat Nat))).entries 0).p = none) ∧
    ((tryUnexpunge ((run ([Op.ins 1 2, Op.del 1]
      : List (Op Nat Nat))).entries 0)).1.p = none ∧
     (tryUnexpunge ((run ([Op.ins 1 2, Op.del 1]
      : List (Op Nat Nat))).entries 0)).2 = true) :=
  ⟨(c10_expunged_always_null [Op.ins 1 2, Op.del 1] 0).1,
   (c10_expunged_always_null [Op.ins 1 2, Op.del 1] 0).2.1,
   (c10_expunged_always_null [Op.ins 1 2, Op.del 1] 0).2.2 (by decide)⟩

end Syncmap
